import Mathlib

/-!
Shallow embedding of the Uiua interpreter runtime (`src/run.rs`): the
multi-stack machine state, the node dispatcher, call frames with the
signature-drift check, fill/unfill contexts, limits, and the thread `wait`
operation.  Machine integers are modelled as `Nat`; the wall clock is a `Nat`
field of the state; the `debug_assertions` / `wasm32` compile-time flags are a
`Cfg` parameter.  Stacks are Lean lists with the head as the top of the
corresponding Rust `Vec` (its last element).
-/

/-- Signature `(args, outputs)` of a function (`Signature` in the source). -/
structure Sig where
  args : Nat
  outputs : Nat


/-- One element of a value's flat data: a number, or a boxed value
(`Boxed` in the source).  A box carries the boxed value's shape and data. -/
inductive Elem where
  | num (n : Nat)
  | box (shape : List Nat) (data : List Elem)


/-- A value: a multi-dimensional array given by its shape and its flat row-major
data (`Value` in the source, numbers only, with boxes for nesting). -/
structure Value where
  shape : List Nat
  data : List Elem


/-- Identity of a function (`FunctionId`); only `Main` is distinguished. -/
inductive FunctionId where
  | main
  | other (n : Nat)


/-- A function: id, signature and the index of its body in the assembly's
function table (`Function` in the source). -/
structure Func where
  id : FunctionId
  sig : Sig
  index : Nat


/-- Length specification of an `Array` node (`ArrayLen`). -/
inductive ArrayLen where
  | static (n : Nat)
  | dynamic (n : Nat)


/-- The subset of IR `Node` variants embedded here (from the `Node` enum). -/
inductive Node where
  | run (nodes : List Node)
  | push (v : Value)
  | callGlobal (index : Nat) (span : Nat)
  | call (f : Func) (span : Nat)
  | array (len : ArrayLen) (inner : Node) (boxed : Bool) (span : Nat)
  | pushUnder (n : Nat) (span : Nat)
  | copyToUnder (n : Nat) (span : Nat)
  | popUnder (n : Nat) (span : Nat)
  | noInline (inner : Node)
  | trackCaller (inner : Node)


/-- Kind of a binding (`BindingKind`). -/
inductive BindingKind where
  | const (v : Option Value)
  | func (f : Func)
  | imported
  | module (n : Nat)
  | indexMac (n : Nat)
  | codeMac (n : Nat)


/-- A binding table entry (only the `kind` field is relevant at run time). -/
structure Binding where
  kind : BindingKind


/-- Kind of a runtime error (`UiuaErrorKind`): a spanned run error, a timeout
(carrying span and inputs), or an interruption. -/
inductive ErrKind where
  | runErr (span : Nat) (message : String) (inputs : Nat)
  | timeout (span : Nat) (inputs : Nat)
  | interrupted


/-- One frame of an error trace (`TraceFrame`). -/
structure TraceFrame where
  id : Option FunctionId
  span : Nat


/-- A runtime error (`UiuaError`): kind, trace, and the caller-override span
set by `track_caller` (modelled from the spec as an error-side field). -/
structure UiuaError where
  kind : ErrKind
  trace : List TraceFrame
  caller : Option Nat


/-- A call-stack frame (`StackFrame`). -/
structure StackFrame where
  sig : Sig
  id : Option FunctionId
  trackCaller : Bool
  callSpan : Nat
  spans : List (Nat × Option Nat)


/-- Result of a finished child thread: its final stack, or its error.  This
models the value received over the child's result channel (the spec:
`wait` must "receive each child's final stack"). -/
inductive ChildRes where
  | done (stack : List Value)
  | failed (e : UiuaError)


/-- The runtime state (`Runtime`): the seven stacks and the bookkeeping
fields.  `now` models the backend clock `backend.now()`; `interrupted` models
the interrupt hook as the boolean it would return when polled;
`children` holds the results of spawned threads by id. -/
structure Runtime where
  stack : List Value
  underStack : List Value
  callStack : List StackFrame
  recurStack : List Nat
  fillStack : List Value
  unfillStack : List Value
  fillBoundaryStack : List (Nat × Nat)
  arrayDepth : Nat
  executionLimit : Option Nat
  executionStart : Nat
  recursionLimit : Nat
  interrupted : Option Bool
  unevaluatedConstants : List (Nat × Node)
  children : List (Nat × ChildRes)
  nextChildId : Nat
  now : Nat


/-- The assembly (`Assembly`): binding, span and function tables plus the
inputs (an abstract token). -/
structure Assembly where
  bindings : List Binding
  spans : List Nat
  functions : List Node
  inputs : Nat


/-- The interpreter (`Uiua`): runtime state plus assembly. -/
structure Uiua where
  rt : Runtime
  asm : Assembly


/-- Result of executing a node: success, a runtime error (with the state at
the point of the error), a Rust panic, or exhaustion of the step fuel (a
model artifact standing for non-termination). -/
inductive Outcome where
  | ok (env : Uiua)
  | err (e : UiuaError) (env : Uiua)
  | panic (msg : String)
  | fuelOut


/-- Compile-time configuration: `debug_assertions` and `target_arch=wasm32`. -/
structure Cfg where
  debug : Bool
  wasm : Bool


/-- Association-list lookup by `Nat` key (models `HashMap::get`). -/
def alookup {α : Type} : List (Nat × α) → Nat → Option α
  | [], _ => none
  | (k, v) :: rest, i => if k = i then some v else alookup rest i

/-- Association-list removal by `Nat` key (models `HashMap::remove`): returns
the removed value and the remaining entries, or `none` if the key is absent. -/
def aremove {α : Type} : List (Nat × α) → Nat → Option (α × List (Nat × α))
  | [], _ => none
  | (k, v) :: rest, i =>
    if k = i then some (v, rest)
    else
      match aremove rest i with
      | none => none
      | some (w, rest') => some (w, (k, v) :: rest')

/-- Index of the current span (`span_index`): the top frame's innermost
pushed span, or its call span; `0` when there is no frame. -/
def spanIndex (env : Uiua) : Nat :=
  match env.rt.callStack with
  | [] => 0
  | frame :: _ =>
    match frame.spans with
    | [] => frame.callSpan
    | (i, _) :: _ => i

/-- The current span (`span()`): the span table entry at `spanIndex`. -/
def currentSpan (env : Uiua) : Nat :=
  env.asm.spans.getD (spanIndex env) 0

/-- Construct a run error at the current span (`error`). -/
def mkError (env : Uiua) (msg : String) : UiuaError :=
  ⟨.runErr (currentSpan env) msg env.asm.inputs, [], none⟩

/-- Construct a run error at a given span (`error_with_span`). -/
def mkErrorWithSpan (env : Uiua) (span : Nat) (msg : String) : UiuaError :=
  ⟨.runErr span msg env.asm.inputs, [], none⟩

/-- Poll the interrupt hook (second half of `respect_execution_limit`). -/
def checkInterrupt (env : Uiua) : Option UiuaError :=
  match env.rt.interrupted with
  | some hook => if hook then some ⟨.interrupted, [], none⟩ else none
  | none => none

/-- Translation of `respect_execution_limit`: when a limit is set and
`now() - execution_start` exceeds it, a `Timeout` error carrying the current
span and the inputs; otherwise poll the interrupt hook. -/
def respectExecutionLimit (env : Uiua) : Option UiuaError :=
  match env.rt.executionLimit with
  | some limit =>
    if env.rt.now - env.rt.executionStart > limit then
      some ⟨.timeout (currentSpan env) env.asm.inputs, [], none⟩
    else checkInterrupt env
  | none => checkInterrupt env

/-- The recursion-limit error message (differs on WASM). -/
def recursionLimitMessage (cfg : Cfg) (limit : Nat) : String :=
  if cfg.wasm then "Recursion limit reached"
  else
    "Recursion limit reached. You can try setting UIUA_RECURSION_LIMIT to a higher value. The current limit is "
      ++ toString limit ++ "."

/-- Translation of `respect_recursion_limit`: error when the call stack is longer than the
recursion limit. -/
def respectRecursionLimit (cfg : Cfg) (env : Uiua) : Option UiuaError :=
  if env.rt.callStack.length > env.rt.recursionLimit then
    some (mkError env (recursionLimitMessage cfg env.rt.recursionLimit))
  else none

/-- The per-node epilogue of `exec_impl`: after the node's own result is
computed, `respect_execution_limit()?` runs and its error takes precedence. -/
def finishNode (res : Outcome) : Outcome :=
  match res with
  | .ok env =>
    match respectExecutionLimit env with
    | some e => .err e env
    | none => .ok env
  | .err e env =>
    match respectExecutionLimit env with
    | some e2 => .err e2 env
    | none => .err e env
  | o => o

/-- Push a value onto the main stack (`push`). -/
def pushVal (v : Value) (env : Uiua) : Uiua :=
  { env with rt := { env.rt with stack := v :: env.rt.stack } }

/-- Pop a value from the main stack (`pop`), with the argument name used in
the empty-stack error message. -/
def popVal (env : Uiua) (argName : String) : Except UiuaError (Value × Uiua) :=
  match env.rt.stack with
  | [] => .error (mkError env ("Stack was empty when evaluating " ++ argName))
  | v :: rest => .ok (v, { env with rt := { env.rt with stack := rest } })

/-- After the body of `with_prim_span`: pop the span pair from the top frame
(`call_stack.last_mut().unwrap().spans.pop()`); a missing frame is a panic. -/
def popSpanAfter (res : Outcome) : Outcome :=
  match res with
  | .ok env =>
    match env.rt.callStack with
    | [] => .panic "called unwrap on None"
    | f :: r =>
      .ok { env with rt := { env.rt with callStack := { f with spans := f.spans.tail } :: r } }
  | .err e env =>
    match env.rt.callStack with
    | [] => .panic "called unwrap on None"
    | f :: r =>
      .err e { env with rt := { env.rt with callStack := { f with spans := f.spans.tail } :: r } }
  | o => o

/-- Translation of `with_prim_span`: push a `(span, prim)` pair onto the top frame's span
stack, run the body, pop the pair. -/
def withPrimSpan (span : Nat) (prim : Option Nat) (k : Uiua → Outcome) (env : Uiua) : Outcome :=
  match env.rt.callStack with
  | [] => .panic "called unwrap on None"
  | frame :: rest =>
    popSpanAfter
      (k { env with rt := { env.rt with
            callStack := { frame with spans := (span, prim) :: frame.spans } :: rest } })

/-- After the body of `without_fill`: pop the fill boundary (a silent `Vec::pop`). -/
def popBoundaryAfter (res : Outcome) : Outcome :=
  match res with
  | .ok env =>
    .ok { env with rt := { env.rt with fillBoundaryStack := env.rt.fillBoundaryStack.tail } }
  | .err e env =>
    .err e { env with rt := { env.rt with fillBoundaryStack := env.rt.fillBoundaryStack.tail } }
  | o => o

/-- Translation of `without_fill`: push `(len fill_stack, len unfill_stack)` onto the fill
boundary stack, run the body, pop the boundary. -/
def withoutFill (k : Uiua → Outcome) (env : Uiua) : Outcome :=
  popBoundaryAfter
    (k { env with rt := { env.rt with
          fillBoundaryStack :=
            (env.rt.fillStack.length, env.rt.unfillStack.length) :: env.rt.fillBoundaryStack } })

/-- After the body of `with_fill`: pop the fill stack (a silent `Vec::pop`). -/
def popFillAfter (res : Outcome) : Outcome :=
  match res with
  | .ok env => .ok { env with rt := { env.rt with fillStack := env.rt.fillStack.tail } }
  | .err e env => .err e { env with rt := { env.rt with fillStack := env.rt.fillStack.tail } }
  | o => o

/-- Translation of `with_fill`: push the fill value, run the body, pop it. -/
def withFill (v : Value) (k : Uiua → Outcome) (env : Uiua) : Outcome :=
  popFillAfter (k { env with rt := { env.rt with fillStack := v :: env.rt.fillStack } })

/-- After the body of `with_unfill`: pop the unfill stack. -/
def popUnfillAfter (res : Outcome) : Outcome :=
  match res with
  | .ok env => .ok { env with rt := { env.rt with unfillStack := env.rt.unfillStack.tail } }
  | .err e env => .err e { env with rt := { env.rt with unfillStack := env.rt.unfillStack.tail } }
  | o => o

/-- Translation of `with_unfill`: push the unfill value, run the body, pop it. -/
def withUnfill (v : Value) (k : Uiua → Outcome) (env : Uiua) : Outcome :=
  popUnfillAfter (k { env with rt := { env.rt with unfillStack := v :: env.rt.unfillStack } })

/-- Translation of `value_fill`: the top of the fill stack, unless the top fill boundary
records a fill-stack length at least the current one. -/
def valueFill (env : Uiua) : Option Value :=
  match env.rt.fillBoundaryStack.head? with
  | some (i, _) => if i ≥ env.rt.fillStack.length then none else env.rt.fillStack.head?
  | none => env.rt.fillStack.head?

/-- Translation of `value_unfill`: symmetric to `valueFill` on the unfill stack. -/
def valueUnfill (env : Uiua) : Option Value :=
  match env.rt.fillBoundaryStack.head? with
  | some (_, i) => if i ≥ env.rt.unfillStack.length then none else env.rt.unfillStack.head?
  | none => env.rt.unfillStack.head?

/-- Modelled from the spec: the display form of a signature as it appears in
the drift error message of scenario S1, `(args,outputs)`. -/
def sigToString (sig : Sig) : String :=
  "(" ++ toString sig.args ++ "," ++ toString sig.outputs ++ ")"

/-- The signature-drift error message of `exec_with_frame_span`. -/
def driftMessage (heightDiff sigDiff : Int) (sig : Sig) : String :=
  "Function modified the stack by " ++ toString heightDiff
    ++ " values, but its signature of " ++ sigToString sig
    ++ " implies a change of " ++ toString sigDiff

/-- Translation of `exec_with_frame_span`: record the pre-call stack height, push the frame,
execute the body, pop the frame; on error attach the trace (or the caller
override if the popped frame has `track_caller`); on success check the
signature drift: a mismatch panics in debug builds and raises a run error at
the call span in release builds. -/
def execWithFrameSpan (go : Node → Uiua → Outcome) (cfg : Cfg) (node : Node)
    (frame : StackFrame) (callSpan : Nat) (env : Uiua) : Outcome :=
  let startHeight := env.rt.stack.length
  let sig := frame.sig
  match go node { env with rt := { env.rt with callStack := frame :: env.rt.callStack } } with
  | .panic m => .panic m
  | .fuelOut => .fuelOut
  | .err e env2 =>
    match env2.rt.callStack with
    | [] => .panic "called unwrap on None"
    | f :: r =>
      let env3 := { env2 with rt := { env2.rt with callStack := r } }
      let span := env3.asm.spans.getD f.callSpan 0
      if f.trackCaller then .err { e with caller := some span } env3
      else .err { e with trace := e.trace ++ [⟨f.id, span⟩] } env3
  | .ok env2 =>
    match env2.rt.callStack with
    | [] => .panic "called unwrap on None"
    | _ :: r =>
      let env3 := { env2 with rt := { env2.rt with callStack := r } }
      let heightDiff : Int := (env3.rt.stack.length : Int) - (startHeight : Int)
      let sigDiff : Int := (sig.outputs : Int) - (sig.args : Int)
      if heightDiff = sigDiff then .ok env3
      else if cfg.debug then .panic (driftMessage heightDiff sigDiff sig)
      else
        .err (mkErrorWithSpan env3 (env3.asm.spans.getD callSpan 0)
          (driftMessage heightDiff sigDiff sig)) env3

/-- Translation of `call_with_span`: run the function's body under a fresh frame, inside a
`without_fill` boundary. -/
def callWithSpan (go : Node → Uiua → Outcome) (cfg : Cfg) (f : Func) (callSpan : Nat)
    (env : Uiua) : Outcome :=
  withoutFill
    (fun env1 =>
      execWithFrameSpan go cfg (env1.asm.functions.getD f.index (.run []))
        ⟨f.sig, some f.id, false, callSpan, []⟩ callSpan env1)
    env

/-- Box a value (`Boxed(v)` made into a scalar box value). -/
def Value.boxed (v : Value) : Value :=
  ⟨[], [.box v.shape v.data]⟩

/-- The default empty boxed array (`Array::<Boxed>::default()`). -/
def emptyBoxedArray : Value := ⟨[0], []⟩

/-- Element count of a value (`element_count`): the flat data length. -/
def Value.elementCount (v : Value) : Nat := v.data.length

/-- Modelled from the spec: `elem_size` (host value library, outside `src/`)
is the byte size of one element; every element type here is 8 bytes wide. -/
def Value.elemSize (_ : Value) : Nat := 8

/-- Modelled from the spec: `validate_size_impl` (in `crate::algorithm`,
outside `src/`) validates the total byte size of the array about to be
created.  The spec only requires the size to be validated before
`from_row_values`; host memory limits are outside this model, so the model
accepts every size. -/
def validateSizeImpl (elemSize : Nat) (dims : List Nat) : Option String :=
  let _ := elemSize * dims.foldl (fun a b => a * b) 1
  none

/-- Modelled from the spec: `Value::from_row_values` (host value library,
outside `src/`) builds an array from a list of row values; the produced
array's rows are exactly the given values, which must share a shape. -/
def Value.fromRowValues : List Value → Option Value
  | [] => some ⟨[0], []⟩
  | v :: rest =>
    if rest.all (fun w => w.shape = v.shape) then
      some ⟨(v :: rest).length :: v.shape, ((v :: rest).map Value.data).flatten⟩
    else none

/-- Split a flat data list into `n` chunks of length `L` (row extraction). -/
def chunksOf (L : Nat) : Nat → List Elem → List (List Elem)
  | 0, _ => []
  | n + 1, data => data.take L :: chunksOf L n (data.drop L)

/-- The rows of a value: a scalar is its own single row; an array of shape
`d :: sh` has `d` rows of shape `sh`, carved from the flat data. -/
def Value.rows (v : Value) : List Value :=
  match v.shape with
  | [] => [v]
  | d :: sh => (chunksOf sh.prod d v.data).map (fun ch => ⟨sh, ch⟩)

/-- Translation of `make_array`: run the inner node with `array_depth` raised, compute the
start index from the length spec, drain the top of the stack in reverse,
optionally box, and build the value. -/
def makeArray (go : Node → Uiua → Outcome) (len : ArrayLen) (inner : Node) (boxed : Bool)
    (env : Uiua) : Outcome :=
  let startHeight := env.rt.stack.length
  match go inner { env with rt := { env.rt with arrayDepth := env.rt.arrayDepth + 1 } } with
  | .panic m => .panic m
  | .fuelOut => .fuelOut
  | .err e env2 => .err e { env2 with rt := { env2.rt with arrayDepth := env2.rt.arrayDepth - 1 } }
  | .ok env2 =>
    let env3 := { env2 with rt := { env2.rt with arrayDepth := env2.rt.arrayDepth - 1 } }
    match
      (match len with
       | .static n =>
         if env3.rt.stack.length < n then none else some (env3.rt.stack.length - n)
       | .dynamic n => some (startHeight - n)) with
    | none =>
      .err (mkError env3 ("Stack was empty when getting argument "
        ++ toString (env3.rt.stack.length + 1))) env3
    | some start =>
      let count := env3.rt.stack.length - start
      let values := env3.rt.stack.take count
      let env4 := { env3 with rt := { env3.rt with stack := env3.rt.stack.drop count } }
      let values := if boxed then values.map Value.boxed else values
      if values.isEmpty && boxed then .ok (pushVal emptyBoxedArray env4)
      else
        match validateSizeImpl ((values.head?.map Value.elemSize).getD 8)
            [values.foldl (fun a v => a + v.elementCount) 0] with
        | some msg => .err (mkError env4 msg) env4
        | none =>
          match Value.fromRowValues values with
          | none => .err (mkError env4 "Cannot combine values with different shapes") env4
          | some val => .ok (pushVal val env4)

/-- The node dispatcher core (`exec_impl` without its epilogue), with the
recursion tied off through `go`. -/
def execCore (cfg : Cfg) (go : Node → Uiua → Outcome) (node : Node) (env : Uiua) : Outcome :=
  match node with
  | .run nodes =>
    nodes.foldl
      (fun acc n =>
        match acc with
        | .ok env' => go n env'
        | other => other)
      (.ok env)
  | .push v => .ok (pushVal v env)
  | .callGlobal index _ =>
    match env.asm.bindings.get? index with
    | none =>
      .err (mkError env "Called out-of-bounds binding. This is a bug in the interpreter.") env
    | some binding =>
      match binding.kind with
      | .const (some val) => .ok (pushVal val env)
      | .const none =>
        match aremove env.rt.unevaluatedConstants index with
        | some (nodeC, rest) =>
          (match go nodeC { env with rt := { env.rt with unevaluatedConstants := rest } } with
           | .ok env1 =>
             match popVal env1 "constant" with
             | .error e => .err e env1
             | .ok (val, env2) =>
               let env3 := pushVal val env2
               if index < env3.asm.bindings.length then
                 .ok { env3 with asm := { env3.asm with
                        bindings := env3.asm.bindings.set index ⟨.const (some val)⟩ } }
               else .panic "index out of bounds"
           | other => other)
        | none =>
          .err (mkError env "Called unbound constant. This is a bug in the interpreter.") env
      | .func f =>
        match respectRecursionLimit cfg env with
        | some e => .err e env
        | none => callWithSpan go cfg f (spanIndex env) env
      | .imported =>
        .err (mkError env "Called module global. This is a bug in the interpreter.") env
      | .module _ =>
        .err (mkError env "Called module global. This is a bug in the interpreter.") env
      | .indexMac _ =>
        .err (mkError env "Called index macro global. This is a bug in the interpreter.") env
      | .codeMac _ =>
        .err (mkError env "Called code macro global. This is a bug in the interpreter.") env
  | .call f span => callWithSpan go cfg f span env
  | .array len inner boxed span =>
    withPrimSpan span none (fun env' => makeArray go len inner boxed env') env
  | .pushUnder n span =>
    withPrimSpan span none
      (fun env' =>
        if env'.rt.stack.length < n then
          .err (mkError env' ("Stack was empty when getting argument "
            ++ toString (env'.rt.stack.length + 1))) env'
        else
          .ok { env' with rt := { env'.rt with
                stack := env'.rt.stack.drop n,
                underStack := (env'.rt.stack.take n).reverse ++ env'.rt.underStack } })
      env
  | .copyToUnder n span =>
    withPrimSpan span none
      (fun env' =>
        if env'.rt.stack.length < n then
          .err (mkError env' ("Stack was empty when getting argument "
            ++ toString (env'.rt.stack.length + 1))) env'
        else
          .ok { env' with rt := { env'.rt with
                underStack := (env'.rt.stack.take n).reverse ++ env'.rt.underStack } })
      env
  | .popUnder n span =>
    withPrimSpan span none
      (fun env' =>
        if env'.rt.underStack.length < n then
          .err (mkError env' "Stack was empty when getting context value") env'
        else
          .ok { env' with rt := { env'.rt with
                stack := (env'.rt.underStack.take n).reverse ++ env'.rt.stack,
                underStack := env'.rt.underStack.drop n } })
      env
  | .noInline inner => go inner env
  | .trackCaller inner =>
    match env.rt.callStack with
    | [] => .panic "called unwrap on None"
    | f :: r =>
      go inner { env with rt := { env.rt with callStack := { f with trackCaller := true } :: r } }

/-- Translation of `exec`: the fueled node dispatcher.  Each invocation consumes one unit of
fuel (so fuel bounds the recursion depth) and ends with the execution-limit /
interrupt check of `exec_impl`'s epilogue. -/
def exec (cfg : Cfg) : Nat → Node → Uiua → Outcome
  | 0, _, _ => .fuelOut
  | fuel + 1, node, env =>
    finishNode (execCore cfg (fun n e => exec cfg fuel n e) node env)

/-- Modelled from the spec: `Value::as_natural_array` (host value library,
outside `src/`) reads a value as an array of natural numbers: succeeds with
the shape and the flat numbers when every element is a number. -/
def asNaturalArray (v : Value) : Option (List Nat × List Nat) :=
  match v.data.mapM (fun e => match e with | .num n => some n | .box _ _ => none) with
  | some nums => some (v.shape, nums)
  | none => none

/-- Remove a child thread registration by id, returning its result and the
state without it (`self.rt.thread.children.remove(&handle)`). -/
def removeChild (env : Uiua) (h : Nat) : Option (ChildRes × Uiua) :=
  match aremove env.rt.children h with
  | none => none
  | some (res, rest) => some (res, { env with rt := { env.rt with children := rest } })

/-- The loop of `wait`'s array branch: for each handle, consume the child
registration, receive its final stack, and turn it into one row (the stack's
single value, or `from_row_values` of the whole stack). -/
def waitRows : Uiua → List Nat → List Value → Except (UiuaError × Uiua) (List Value × Uiua)
  | env, [], rows => .ok (rows, env)
  | env, h :: rest, rows =>
    match removeChild env h with
    | none => .error (mkError env "Invalid thread id", env)
    | some (res, env') =>
      match res with
      | .failed e => .error (e, env')
      | .done tstack =>
        if tstack.length = 1 then waitRows env' rest (rows ++ [tstack.headD ⟨[], []⟩])
        else
          match Value.fromRowValues tstack with
          | none => .error (mkError env' "Cannot combine values with different shapes", env')
          | some row => waitRows env' rest (rows ++ [row])

/-- Translation of `wait`: read the id value as a natural array; a scalar id consumes that
child and extends the main stack by its final stack (stored bottom first, as
`take_stack` returns it); an array of ids collects one row per child, builds
an array from the rows, and overwrites its shape with the id array's shape
followed by the row shape. -/
def wait (env : Uiua) (id : Value) : Outcome :=
  match asNaturalArray id with
  | none => .err (mkError env "Thread id must be an array of natural numbers") env
  | some (shape, data) =>
    if shape = [] then
      match data with
      | [] => .panic "index out of bounds"
      | handle :: _ =>
        match removeChild env handle with
        | none => .err (mkError env "Invalid thread id") env
        | some (res, env') =>
          match res with
          | .failed e => .err e env'
          | .done tstack =>
            .ok { env' with rt := { env'.rt with stack := tstack.reverse ++ env'.rt.stack } }
    else
      match waitRows env data [] with
      | .error (e, env') => .err e env'
      | .ok (rows, env') =>
        match Value.fromRowValues rows with
        | none => .err (mkError env' "Cannot combine values with different shapes") env'
        | some val =>
          .ok (pushVal { val with shape := shape ++ val.shape.drop 1 } env')

/-- The default call-stack frame (`StackFrame::default` with `id: Main`). -/
def defaultFrame : StackFrame :=
  ⟨⟨0, 0⟩, some .main, false, 0, []⟩

/-- Translation of `Runtime::default` from the source, parameterized by the `debug_assertions` flag and by
the parsed value of the `UIUA_RECURSION_LIMIT` environment variable (the
result of `std::env::var(..).ok().and_then(parse)`): the recursion limit is
`20` in debug builds and otherwise the environment override or `100`. -/
def mkRuntime (debug : Bool) (envLimit : Option Nat) : Runtime where
  stack := []
  underStack := []
  callStack := [defaultFrame]
  recurStack := []
  fillStack := []
  unfillStack := []
  fillBoundaryStack := []
  arrayDepth := 0
  executionLimit := none
  executionStart := 0
  recursionLimit := if debug then 20 else envLimit.getD 100
  interrupted := none
  unevaluatedConstants := []
  children := []
  nextChildId := 1
  now := 0

/-- With no execution limit and no interrupt hook, the per-node check passes. -/
theorem respectExecutionLimit_none (env : Uiua) (hl : env.rt.executionLimit = none)
    (hi : env.rt.interrupted = none) : respectExecutionLimit env = none := by
  simp [respectExecutionLimit, checkInterrupt, hl, hi]

/-- Lemma: `finishNode` keeps a success when no limit or hook can fire. -/
theorem finishNode_ok (env : Uiua) (hl : env.rt.executionLimit = none)
    (hi : env.rt.interrupted = none) : finishNode (.ok env) = .ok env := by
  simp [finishNode, respectExecutionLimit_none env hl hi]

/-- Lemma: `finishNode` keeps an error when no limit or hook can fire. -/
theorem finishNode_err (e : UiuaError) (env : Uiua) (hl : env.rt.executionLimit = none)
    (hi : env.rt.interrupted = none) : finishNode (.err e env) = .err e env := by
  simp [finishNode, respectExecutionLimit_none env hl hi]

/-- Unfolding of `exec` at positive fuel. -/
theorem exec_succ (cfg : Cfg) (fuel : Nat) (node : Node) (env : Uiua) :
    exec cfg (fuel + 1) node env =
      finishNode (execCore cfg (fun n e => exec cfg fuel n e) node env) := rfl

/-- Executing `PushUnder n` moves the top `n` values to the under stack,
reversing them in transfer. -/
theorem exec_pushUnder (cfg : Cfg) (fuel n sp : Nat) (env : Uiua) (f : StackFrame)
    (r : List StackFrame) (hcs : env.rt.callStack = f :: r)
    (hk : n ≤ env.rt.stack.length) (hl : env.rt.executionLimit = none)
    (hi : env.rt.interrupted = none) :
    exec cfg (fuel + 1) (.pushUnder n sp) env =
      .ok { env with rt := { env.rt with
            stack := env.rt.stack.drop n,
            underStack := (env.rt.stack.take n).reverse ++ env.rt.underStack } } := by
  obtain ⟨⟨st, un, cs, rec, fs, ufs, fbs, ad, el, es, rl, intr, uc, ch, nc, now⟩, asm⟩ := env
  simp only [exec_succ, execCore, withPrimSpan] at *
  subst hcs hl hi
  simp [popSpanAfter, Nat.not_lt.mpr hk, finishNode, respectExecutionLimit, checkInterrupt]

/-- Executing `CopyToUnder n` copies the top `n` values to the under stack,
reversing them in transfer, without removing them from the main stack. -/
theorem exec_copyToUnder (cfg : Cfg) (fuel n sp : Nat) (env : Uiua) (f : StackFrame)
    (r : List StackFrame) (hcs : env.rt.callStack = f :: r)
    (hk : n ≤ env.rt.stack.length) (hl : env.rt.executionLimit = none)
    (hi : env.rt.interrupted = none) :
    exec cfg (fuel + 1) (.copyToUnder n sp) env =
      .ok { env with rt := { env.rt with
            underStack := (env.rt.stack.take n).reverse ++ env.rt.underStack } } := by
  obtain ⟨⟨st, un, cs, rec, fs, ufs, fbs, ad, el, es, rl, intr, uc, ch, nc, now⟩, asm⟩ := env
  simp only [exec_succ, execCore, withPrimSpan] at *
  subst hcs hl hi
  simp [popSpanAfter, Nat.not_lt.mpr hk, finishNode, respectExecutionLimit, checkInterrupt]

/-- Executing `PopUnder n` moves the top `n` values of the under stack back
to the main stack, reversing them in transfer. -/
theorem exec_popUnder (cfg : Cfg) (fuel n sp : Nat) (env : Uiua) (f : StackFrame)
    (r : List StackFrame) (hcs : env.rt.callStack = f :: r)
    (hk : n ≤ env.rt.underStack.length) (hl : env.rt.executionLimit = none)
    (hi : env.rt.interrupted = none) :
    exec cfg (fuel + 1) (.popUnder n sp) env =
      .ok { env with rt := { env.rt with
            stack := (env.rt.underStack.take n).reverse ++ env.rt.stack,
            underStack := env.rt.underStack.drop n } } := by
  obtain ⟨⟨st, un, cs, rec, fs, ufs, fbs, ad, el, es, rl, intr, uc, ch, nc, now⟩, asm⟩ := env
  simp only [exec_succ, execCore, withPrimSpan] at *
  subst hcs hl hi
  simp [popSpanAfter, Nat.not_lt.mpr hk, finishNode, respectExecutionLimit, checkInterrupt]

/-- Executing `Run [a, b]` is sequencing when both halves succeed. -/
theorem exec_run2 (cfg : Cfg) (fuel : Nat) (a b : Node) (env env1 env2 : Uiua)
    (ha : exec cfg fuel a env = .ok env1) (hb : exec cfg fuel b env1 = .ok env2)
    (hl : env2.rt.executionLimit = none) (hi : env2.rt.interrupted = none) :
    exec cfg (fuel + 1) (.run [a, b]) env = .ok env2 := by
  simp [exec_succ, execCore, ha, hb, finishNode_ok env2 hl hi]

/-- C2: for every `k` and every main stack of height at least `k`, executing
`PushUnder(k)` followed by `PopUnder(k)` (under a live call frame, with no
execution limit and no interrupt hook) is the identity on the main stack and
restores the under stack: the final state is the initial state. -/
theorem claim2_push_pop_under (cfg : Cfg) (fuel k sp sp2 : Nat) (env : Uiua)
    (f : StackFrame) (r : List StackFrame) (hcs : env.rt.callStack = f :: r)
    (hk : k ≤ env.rt.stack.length) (hl : env.rt.executionLimit = none)
    (hi : env.rt.interrupted = none) :
    exec cfg (fuel + 2) (.run [.pushUnder k sp, .popUnder k sp2]) env = .ok env := by
  obtain ⟨⟨st, un, cs, rec, fs, ufs, fbs, ad, el, es, rl, intr, uc, ch, nc, now⟩, asm⟩ := env
  simp only at hcs hk hl hi
  subst hcs hl hi
  have h1 : ((st.take k).reverse : List Value).length = k := by
    simp [Nat.min_eq_left hk]
  have e1 : ((st.take k).reverse ++ un).take k = (st.take k).reverse :=
    List.take_left' h1
  have e2 : ((st.take k).reverse ++ un).drop k = un :=
    List.drop_left' h1
  have ha := exec_pushUnder cfg (fuel + 1) k sp
    ⟨⟨st, un, f :: r, rec, fs, ufs, fbs, ad, none, es, rl, none, uc, ch, nc, now⟩, asm⟩
    f r rfl hk rfl rfl
  refine exec_run2 cfg (fuel + 1) _ _ _ _ _ ha ?_ rfl rfl
  have hlen : k ≤ ((st.take k).reverse ++ un : List Value).length := by
    rw [List.length_append, h1]; omega
  refine (exec_popUnder cfg (fuel + 1) k sp2 _ f r rfl hlen rfl rfl).trans ?_
  simp only [e1, e2, List.reverse_reverse, List.take_append_drop]

/-- C3 (amended): for every `k` and every main stack of height at least `k`,
executing `CopyToUnder(k)` followed by `PopUnder(k)` (under a live call frame,
with no execution limit and no interrupt hook) appends a copy of the top-`k`
segment to the main stack in the same order — it duplicates the top `k`
values — and restores the under stack. -/
theorem claim3_amended (cfg : Cfg) (fuel k sp sp2 : Nat) (env : Uiua)
    (f : StackFrame) (r : List StackFrame) (hcs : env.rt.callStack = f :: r)
    (hk : k ≤ env.rt.stack.length) (hl : env.rt.executionLimit = none)
    (hi : env.rt.interrupted = none) :
    exec cfg (fuel + 2) (.run [.copyToUnder k sp, .popUnder k sp2]) env =
      .ok { env with rt := { env.rt with stack := env.rt.stack.take k ++ env.rt.stack } } := by
  obtain ⟨⟨st, un, cs, rec, fs, ufs, fbs, ad, el, es, rl, intr, uc, ch, nc, now⟩, asm⟩ := env
  simp only at hcs hk hl hi
  subst hcs hl hi
  have h1 : ((st.take k).reverse : List Value).length = k := by
    simp [Nat.min_eq_left hk]
  have e1 : ((st.take k).reverse ++ un).take k = (st.take k).reverse :=
    List.take_left' h1
  have e2 : ((st.take k).reverse ++ un).drop k = un :=
    List.drop_left' h1
  have ha := exec_copyToUnder cfg (fuel + 1) k sp
    ⟨⟨st, un, f :: r, rec, fs, ufs, fbs, ad, none, es, rl, none, uc, ch, nc, now⟩, asm⟩
    f r rfl hk rfl rfl
  refine exec_run2 cfg (fuel + 1) _ _ _ _ _ ha ?_ rfl rfl
  have hlen : k ≤ ((st.take k).reverse ++ un : List Value).length := by
    rw [List.length_append, h1]; omega
  refine (exec_popUnder cfg (fuel + 1) k sp2 _ f r rfl hlen rfl rfl).trans ?_
  simp only [e1, e2, List.reverse_reverse]

/-- The scalar value 1. -/
def vOne : Value := ⟨[], [.num 1]⟩

/-- The scalar value 2. -/
def vTwo : Value := ⟨[], [.num 2]⟩

/-- The scalar value 7. -/
def vSeven : Value := ⟨[], [.num 7]⟩

/-- A release, non-WASM build configuration. -/
def cfgRel : Cfg := ⟨false, false⟩

/-- A debug, non-WASM build configuration. -/
def cfgDbg : Cfg := ⟨true, false⟩

/-- A small assembly with three spans and nothing else. -/
def asm0 : Assembly := ⟨[], [0, 1, 2], [], 0⟩

/-- A fresh release-mode interpreter over `asm0`. -/
def env0 : Uiua := ⟨mkRuntime false none, asm0⟩

/-- The initial state of the C3 counterexample: main stack `[2, 1]`, 2 on top. -/
def envC3 : Uiua := ⟨{ mkRuntime false none with stack := [vTwo, vOne] }, asm0⟩

/-- C3 (counterexample): with main stack `[1, 2]` (2 on top) and `k = 2`,
`CopyToUnder(2)` then `PopUnder(2)` leaves the stack `[1, 2, 1, 2]` (top
first: `[2, 1, 2, 1]`): the two appended values are the original top-2
segment in the same order, not reversed, refuting the claim as stated. -/
theorem claim3_counterexample :
    (match exec cfgRel 5 (.run [.copyToUnder 2 0, .popUnder 2 0]) envC3 with
     | .ok e => some e.rt.stack
     | _ => none) = some [vTwo, vOne, vTwo, vOne]
    ∧ [vTwo, vOne] ≠ [vOne, vTwo] := by
  refine ⟨rfl, ?_⟩
  simp [vOne, vTwo]

/-- Witness for C3 (amended): a concrete run of `claim3_amended` at `k = 1`
on the stack `[1]`. -/
theorem claim3_witness :
    exec cfgRel 2 (.run [.copyToUnder 1 0, .popUnder 1 0])
      ⟨{ mkRuntime false none with stack := [vOne] }, asm0⟩ =
      .ok ⟨{ mkRuntime false none with stack := [vOne, vOne] }, asm0⟩ :=
  claim3_amended cfgRel 0 1 0 0 _ defaultFrame [] rfl (by decide) rfl rfl

/-- Witness for C2: a concrete run of `claim2_push_pop_under` at `k = 1` on
the stack `[1]`. -/
theorem claim2_witness :
    exec cfgRel 2 (.run [.pushUnder 1 0, .popUnder 1 0])
      ⟨{ mkRuntime false none with stack := [vOne] }, asm0⟩ =
      .ok ⟨{ mkRuntime false none with stack := [vOne] }, asm0⟩ :=
  claim2_push_pop_under cfgRel 0 1 0 0 _ defaultFrame [] rfl (by decide) rfl rfl

/-- C4: when the top fill boundary records a fill-stack length at least the
current one, `value_fill` returns `None` even if the fill stack is non-empty;
when a fill was installed inside the boundary (recorded length strictly less
than the current one), `value_fill` returns the top of the fill stack. -/
theorem claim4_value_fill (env : Uiua) (i u : Nat)
    (hb : env.rt.fillBoundaryStack.head? = some (i, u)) :
    (env.rt.fillStack.length ≤ i → valueFill env = none)
    ∧ (i < env.rt.fillStack.length →
        valueFill env = env.rt.fillStack.head? ∧ env.rt.fillStack ≠ []) := by
  constructor
  · intro h
    simp only [valueFill, hb]
    rw [if_pos h]
  · intro h
    simp only [valueFill, hb]
    rw [if_neg (by omega)]
    exact ⟨rfl, List.ne_nil_of_length_pos (by omega)⟩

/-- The fill-boundary state of the C4 witness: fill `[1]`, boundary `(1, 0)`. -/
def envC4a : Uiua :=
  ⟨{ mkRuntime false none with fillStack := [vOne], fillBoundaryStack := [(1, 0)] }, asm0⟩

/-- The fill-boundary state of the C4 witness: fill `[1]`, boundary `(0, 0)`. -/
def envC4b : Uiua :=
  ⟨{ mkRuntime false none with fillStack := [vOne], fillBoundaryStack := [(0, 0)] }, asm0⟩

/-- Witness for C4: with one fill and a boundary recording length 1 the fill
is masked; with a boundary recording length 0 it is visible. -/
theorem claim4_witness :
    valueFill envC4a = none ∧ valueFill envC4b = some vOne :=
  ⟨(claim4_value_fill envC4a 1 0 rfl).1 (by simp [envC4a]),
   ((claim4_value_fill envC4b 0 0 rfl).2 (by simp [envC4b])).1⟩

/-- C10: each of `with_fill`, `with_unfill` and `without_fill` restores the
stack it modified (fill, unfill and fill-boundary stack respectively) to its
pre-call length on both the success and the error path, provided the enclosed
computation preserves the length of that stack (as `exec` does). -/
theorem claim10_fill_restore (v w : Value) (k1 k2 k3 : Uiua → Outcome)
    (hk1 : ∀ s s', (k1 s = .ok s' → s'.rt.fillStack.length = s.rt.fillStack.length)
      ∧ (∀ e, k1 s = .err e s' → s'.rt.fillStack.length = s.rt.fillStack.length))
    (hk2 : ∀ s s', (k2 s = .ok s' → s'.rt.unfillStack.length = s.rt.unfillStack.length)
      ∧ (∀ e, k2 s = .err e s' → s'.rt.unfillStack.length = s.rt.unfillStack.length))
    (hk3 : ∀ s s', (k3 s = .ok s' → s'.rt.fillBoundaryStack.length = s.rt.fillBoundaryStack.length)
      ∧ (∀ e, k3 s = .err e s' →
          s'.rt.fillBoundaryStack.length = s.rt.fillBoundaryStack.length)) :
    ∀ env : Uiua,
      ((∀ s', withFill v k1 env = .ok s' → s'.rt.fillStack.length = env.rt.fillStack.length)
        ∧ (∀ e s', withFill v k1 env = .err e s' →
            s'.rt.fillStack.length = env.rt.fillStack.length))
      ∧ ((∀ s', withUnfill w k2 env = .ok s' →
            s'.rt.unfillStack.length = env.rt.unfillStack.length)
        ∧ (∀ e s', withUnfill w k2 env = .err e s' →
            s'.rt.unfillStack.length = env.rt.unfillStack.length))
      ∧ ((∀ s', withoutFill k3 env = .ok s' →
            s'.rt.fillBoundaryStack.length = env.rt.fillBoundaryStack.length)
        ∧ (∀ e s', withoutFill k3 env = .err e s' →
            s'.rt.fillBoundaryStack.length = env.rt.fillBoundaryStack.length)) := by
  intro env
  refine ⟨⟨?_, ?_⟩, ⟨?_, ?_⟩, ⟨?_, ?_⟩⟩
  · intro s' hh
    unfold withFill at hh
    cases hres : k1 { env with rt := { env.rt with fillStack := v :: env.rt.fillStack } } with
    | ok s1 =>
      rw [hres] at hh
      simp only [popFillAfter, Outcome.ok.injEq] at hh
      have h1 := (hk1 _ s1).1 hres
      simp only [← hh]
      simp at h1 ⊢
      omega
    | err e1 s1 => rw [hres] at hh; simp [popFillAfter] at hh
    | panic m => rw [hres] at hh; simp [popFillAfter] at hh
    | fuelOut => rw [hres] at hh; simp [popFillAfter] at hh
  · intro e s' hh
    unfold withFill at hh
    cases hres : k1 { env with rt := { env.rt with fillStack := v :: env.rt.fillStack } } with
    | ok s1 => rw [hres] at hh; simp [popFillAfter] at hh
    | err e1 s1 =>
      rw [hres] at hh
      simp only [popFillAfter, Outcome.err.injEq] at hh
      have h1 := (hk1 _ s1).2 e1 hres
      simp only [← hh.2]
      simp at h1 ⊢
      omega
    | panic m => rw [hres] at hh; simp [popFillAfter] at hh
    | fuelOut => rw [hres] at hh; simp [popFillAfter] at hh
  · intro s' hh
    unfold withUnfill at hh
    cases hres : k2 { env with rt := { env.rt with unfillStack := w :: env.rt.unfillStack } } with
    | ok s1 =>
      rw [hres] at hh
      simp only [popUnfillAfter, Outcome.ok.injEq] at hh
      have h1 := (hk2 _ s1).1 hres
      simp only [← hh]
      simp at h1 ⊢
      omega
    | err e1 s1 => rw [hres] at hh; simp [popUnfillAfter] at hh
    | panic m => rw [hres] at hh; simp [popUnfillAfter] at hh
    | fuelOut => rw [hres] at hh; simp [popUnfillAfter] at hh
  · intro e s' hh
    unfold withUnfill at hh
    cases hres : k2 { env with rt := { env.rt with unfillStack := w :: env.rt.unfillStack } } with
    | ok s1 => rw [hres] at hh; simp [popUnfillAfter] at hh
    | err e1 s1 =>
      rw [hres] at hh
      simp only [popUnfillAfter, Outcome.err.injEq] at hh
      have h1 := (hk2 _ s1).2 e1 hres
      simp only [← hh.2]
      simp at h1 ⊢
      omega
    | panic m => rw [hres] at hh; simp [popUnfillAfter] at hh
    | fuelOut => rw [hres] at hh; simp [popUnfillAfter] at hh
  · intro s' hh
    unfold withoutFill at hh
    cases hres : k3 { env with rt := { env.rt with fillBoundaryStack :=
        (env.rt.fillStack.length, env.rt.unfillStack.length) :: env.rt.fillBoundaryStack } } with
    | ok s1 =>
      rw [hres] at hh
      simp only [popBoundaryAfter, Outcome.ok.injEq] at hh
      have h1 := (hk3 _ s1).1 hres
      simp only [← hh]
      simp at h1 ⊢
      omega
    | err e1 s1 => rw [hres] at hh; simp [popBoundaryAfter] at hh
    | panic m => rw [hres] at hh; simp [popBoundaryAfter] at hh
    | fuelOut => rw [hres] at hh; simp [popBoundaryAfter] at hh
  · intro e s' hh
    unfold withoutFill at hh
    cases hres : k3 { env with rt := { env.rt with fillBoundaryStack :=
        (env.rt.fillStack.length, env.rt.unfillStack.length) :: env.rt.fillBoundaryStack } } with
    | ok s1 => rw [hres] at hh; simp [popBoundaryAfter] at hh
    | err e1 s1 =>
      rw [hres] at hh
      simp only [popBoundaryAfter, Outcome.err.injEq] at hh
      have h1 := (hk3 _ s1).2 e1 hres
      simp only [← hh.2]
      simp at h1 ⊢
      omega
    | panic m => rw [hres] at hh; simp [popBoundaryAfter] at hh
    | fuelOut => rw [hres] at hh; simp [popBoundaryAfter] at hh

/-- A state with one fill installed, for the C10 witness. -/
def envF0 : Uiua := ⟨{ mkRuntime false none with fillStack := [vTwo] }, asm0⟩

/-- An enclosed computation that fails immediately, for the C10 witness. -/
def kErr : Uiua → Outcome := fun s => .err (mkError s "fill context body failed") s

/-- Witness for C10: even when the enclosed computation errors, `with_fill`
pops the fill it pushed, restoring the fill stack of `envF0` to length 1. -/
theorem claim10_witness :
    ({ envF0 with rt := { envF0.rt with
        fillStack := (vOne :: envF0.rt.fillStack).tail } } : Uiua).rt.fillStack.length =
      envF0.rt.fillStack.length :=
  ((claim10_fill_restore vOne vOne kErr kErr kErr
    (fun s s' => ⟨fun h => (by cases h), fun e h => by cases h; rfl⟩)
    (fun s s' => ⟨fun h => (by cases h), fun e h => by cases h; rfl⟩)
    (fun s s' => ⟨fun h => (by cases h), fun e h => by cases h; rfl⟩)) envF0).1.2
    (mkError { envF0 with rt := { envF0.rt with
        fillStack := vOne :: envF0.rt.fillStack } } "fill context body failed")
    { envF0 with rt := { envF0.rt with fillStack := (vOne :: envF0.rt.fillStack).tail } }
    rfl

/-- C1: for a function call executed with a frame of signature `(a, b)` whose
body succeeds: if the observed main-stack height change equals `b - a` the
call returns successfully; if it differs, the engine panics in debug builds
and raises a runtime error at the call span in release builds. -/
theorem claim1_sig_drift (cfg : Cfg) (fuel : Nat) (node : Node) (frame : StackFrame)
    (callSpan : Nat) (env env2 : Uiua) (a b : Nat) (hsig : frame.sig = ⟨a, b⟩)
    (hbody : exec cfg fuel node
      { env with rt := { env.rt with callStack := frame :: env.rt.callStack } } = .ok env2)
    (f : StackFrame) (r : List StackFrame) (hcs2 : env2.rt.callStack = f :: r) :
    ((env2.rt.stack.length : Int) - (env.rt.stack.length : Int) = (b : Int) - (a : Int) →
      execWithFrameSpan (fun n e => exec cfg fuel n e) cfg node frame callSpan env =
        .ok { env2 with rt := { env2.rt with callStack := r } })
    ∧ ((env2.rt.stack.length : Int) - (env.rt.stack.length : Int) ≠ (b : Int) - (a : Int) →
      execWithFrameSpan (fun n e => exec cfg fuel n e) cfg node frame callSpan env =
        (if cfg.debug then
          .panic (driftMessage ((env2.rt.stack.length : Int) - (env.rt.stack.length : Int))
            ((b : Int) - (a : Int)) ⟨a, b⟩)
        else
          .err (mkErrorWithSpan { env2 with rt := { env2.rt with callStack := r } }
              ({ env2 with rt := { env2.rt with callStack := r } }.asm.spans.getD callSpan 0)
              (driftMessage ((env2.rt.stack.length : Int) - (env.rt.stack.length : Int))
                ((b : Int) - (a : Int)) ⟨a, b⟩))
            { env2 with rt := { env2.rt with callStack := r } })) := by
  constructor
  · intro h
    simp only [execWithFrameSpan, hbody, hcs2, hsig]
    rw [if_pos h]
  · intro h
    simp only [execWithFrameSpan, hbody, hcs2, hsig]
    rw [if_neg h]

/-- The frame of the C1 witness: declared signature `(0, 1)`. -/
def frameC1 : StackFrame := ⟨⟨0, 1⟩, none, false, 0, []⟩

/-- Witness for C1: pushing one literal under a frame of signature `(0, 1)`
passes the drift check and the call returns successfully. -/
theorem claim1_witness :
    execWithFrameSpan (fun n e => exec cfgRel 1 n e) cfgRel (.push vOne) frameC1 0 env0 =
      .ok ⟨{ mkRuntime false none with stack := [vOne] }, asm0⟩ :=
  (claim1_sig_drift cfgRel 1 (.push vOne) frameC1 0 env0
      ⟨{ mkRuntime false none with stack := [vOne], callStack := [frameC1, defaultFrame] },
        asm0⟩
      0 1 rfl rfl frameC1 [defaultFrame] rfl).1 (by decide)

/-- The components of the state that no embedded node can change: limits,
clock, hook, span/function tables, inputs, and the binding-table length. -/
structure Persist where
  limit : Option Nat
  start : Nat
  clock : Nat
  intr : Option Bool
  recLim : Nat
  spans : List Nat
  inputs : Nat
  functions : List Node
  nbindings : Nat

/-- Project the persistent components out of a state. -/
def persist (env : Uiua) : Persist :=
  ⟨env.rt.executionLimit, env.rt.executionStart, env.rt.now, env.rt.interrupted,
   env.rt.recursionLimit, env.asm.spans, env.asm.inputs, env.asm.functions,
   env.asm.bindings.length⟩

/-- Whether an error kind is a timeout. -/
def ErrKind.isTimeout : ErrKind → Bool
  | .timeout _ _ => true
  | _ => false

/-- Invariant carried through execution: any resulting state keeps the
persistent components `c` and only ever shrinks the unevaluated-constant
table below `u`; any resulting error is a timeout only if a limit is set. -/
def OutP (c : Persist) (u : List (Nat × Node)) : Outcome → Prop
  | .ok s => persist s = c ∧ s.rt.unevaluatedConstants.Sublist u
  | .err e s => persist s = c ∧ s.rt.unevaluatedConstants.Sublist u
      ∧ (c.limit = none → e.kind.isTimeout = false)
  | .panic _ => True
  | .fuelOut => True

/-- Transport an `OutP` fact along equal persistents and a larger table. -/
theorem OutP.transport {c : Persist} {u u' : List (Nat × Node)} {o : Outcome}
    (h : OutP c u o) (hc : c = c') (hu : u.Sublist u') : OutP c' u' o := by
  cases o with
  | ok s => exact ⟨hc ▸ h.1, h.2.trans hu⟩
  | err e s => exact ⟨hc ▸ h.1, h.2.1.trans hu, hc ▸ h.2.2⟩
  | panic m => trivial
  | fuelOut => trivial

/-- When no limit is set, `respect_execution_limit` never produces a timeout. -/
theorem respect_not_timeout (env : Uiua) (e : UiuaError)
    (hl : env.rt.executionLimit = none) (h : respectExecutionLimit env = some e) :
    e.kind.isTimeout = false := by
  unfold respectExecutionLimit at h
  rw [hl] at h
  unfold checkInterrupt at h
  cases hintr : env.rt.interrupted with
  | none => rw [hintr] at h; cases h
  | some b =>
    rw [hintr] at h
    cases b
    · simp at h
    · simp at h
      rw [← h]
      rfl

/-- Lemma: `finishNode` preserves the execution invariant. -/
theorem finishNode_persist {c : Persist} {u : List (Nat × Node)} {o : Outcome}
    (h : OutP c u o) : OutP c u (finishNode o) := by
  cases o with
  | ok s =>
    simp only [finishNode]
    cases hr : respectExecutionLimit s with
    | none => exact h
    | some e =>
      have hls : s.rt.executionLimit = none → e.kind.isTimeout = false := fun hl =>
        respect_not_timeout s e hl hr
      refine ⟨h.1, h.2, fun hnone => hls ?_⟩
      have := congrArg Persist.limit h.1
      simp only [persist] at this
      rw [this, hnone]
  | err e s =>
    simp only [finishNode]
    cases hr : respectExecutionLimit s with
    | none => exact h
    | some e2 =>
      refine ⟨h.1, h.2.1, fun hnone => respect_not_timeout s e2 ?_ hr⟩
      have := congrArg Persist.limit h.1
      simp only [persist] at this
      rw [this, hnone]
  | panic m => trivial
  | fuelOut => trivial

/-- Lemma: `popSpanAfter` preserves the execution invariant. -/
theorem popSpanAfter_persist {c : Persist} {u : List (Nat × Node)} {o : Outcome}
    (h : OutP c u o) : OutP c u (popSpanAfter o) := by
  cases o with
  | ok s =>
    simp only [popSpanAfter]
    cases hcs : s.rt.callStack with
    | nil => trivial
    | cons f r => exact ⟨h.1, h.2⟩
  | err e s =>
    simp only [popSpanAfter]
    cases hcs : s.rt.callStack with
    | nil => trivial
    | cons f r => exact ⟨h.1, h.2.1, h.2.2⟩
  | panic m => trivial
  | fuelOut => trivial

/-- Lemma: `popBoundaryAfter` preserves the execution invariant. -/
theorem popBoundaryAfter_persist {c : Persist} {u : List (Nat × Node)} {o : Outcome}
    (h : OutP c u o) : OutP c u (popBoundaryAfter o) := by
  cases o with
  | ok s => exact ⟨h.1, h.2⟩
  | err e s => exact ⟨h.1, h.2.1, h.2.2⟩
  | panic m => exact h
  | fuelOut => exact h

/-- Lemma: `withPrimSpan` preserves the execution invariant when its body does. -/
theorem withPrimSpan_persist (sp : Nat) (p : Option Nat) (k : Uiua → Outcome) (env : Uiua)
    (hk : ∀ e', OutP (persist e') e'.rt.unevaluatedConstants (k e')) :
    OutP (persist env) env.rt.unevaluatedConstants (withPrimSpan sp p k env) := by
  unfold withPrimSpan
  cases hcs : env.rt.callStack with
  | nil => trivial
  | cons frame rest => exact popSpanAfter_persist (hk _)

/-- Lemma: `withoutFill` preserves the execution invariant when its body does. -/
theorem withoutFill_persist (k : Uiua → Outcome) (env : Uiua)
    (hk : ∀ e', OutP (persist e') e'.rt.unevaluatedConstants (k e')) :
    OutP (persist env) env.rt.unevaluatedConstants (withoutFill k env) :=
  popBoundaryAfter_persist (hk _)

/-- Lemma: `execWithFrameSpan` preserves the execution invariant when `go` does. -/
theorem execWithFrameSpan_persist (go : Node → Uiua → Outcome) (cfg : Cfg) (node : Node)
    (frame : StackFrame) (callSpan : Nat) (env : Uiua)
    (hgo : ∀ n e', OutP (persist e') e'.rt.unevaluatedConstants (go n e')) :
    OutP (persist env) env.rt.unevaluatedConstants
      (execWithFrameSpan go cfg node frame callSpan env) := by
  unfold execWithFrameSpan
  have h := hgo node
    { env with rt := { env.rt with callStack := frame :: env.rt.callStack } }
  cases hres : go node
      { env with rt := { env.rt with callStack := frame :: env.rt.callStack } } with
  | panic m => trivial
  | fuelOut => trivial
  | err e env2 =>
    rw [hres] at h
    cases hcs : env2.rt.callStack with
    | nil => simp only [hcs]; trivial
    | cons f r =>
      simp only [hcs]
      by_cases htc : f.trackCaller
      · simp only [htc, if_true]
        exact ⟨h.1, h.2.1, h.2.2⟩
      · simp only [htc, if_false]
        exact ⟨h.1, h.2.1, h.2.2⟩
  | ok env2 =>
    rw [hres] at h
    cases hcs : env2.rt.callStack with
    | nil => simp only [hcs]; trivial
    | cons f r =>
      simp only [hcs]
      by_cases hd : (((({ env2 with rt := { env2.rt with callStack := r } } : Uiua)
            ).rt.stack.length : Int) - (env.rt.stack.length : Int) =
          (frame.sig.outputs : Int) - (frame.sig.args : Int))
      · rw [if_pos hd]
        exact ⟨h.1, h.2⟩
      · rw [if_neg hd]
        by_cases hdbg : cfg.debug
        · simp only [hdbg, if_true]
          trivial
        · simp only [hdbg, if_false]
          exact ⟨h.1, h.2, fun _ => rfl⟩

/-- Lemma: `callWithSpan` preserves the execution invariant when `go` does. -/
theorem callWithSpan_persist (go : Node → Uiua → Outcome) (cfg : Cfg) (f : Func)
    (callSpan : Nat) (env : Uiua)
    (hgo : ∀ n e', OutP (persist e') e'.rt.unevaluatedConstants (go n e')) :
    OutP (persist env) env.rt.unevaluatedConstants (callWithSpan go cfg f callSpan env) :=
  withoutFill_persist _ env (fun e' => execWithFrameSpan_persist go cfg _ _ _ e' hgo)

/-- Lemma: `makeArray` preserves the execution invariant when `go` does. -/
theorem makeArray_persist (go : Node → Uiua → Outcome) (len : ArrayLen) (inner : Node)
    (boxed : Bool) (env : Uiua)
    (hgo : ∀ n e', OutP (persist e') e'.rt.unevaluatedConstants (go n e')) :
    OutP (persist env) env.rt.unevaluatedConstants (makeArray go len inner boxed env) := by
  unfold makeArray
  have h := hgo inner { env with rt := { env.rt with arrayDepth := env.rt.arrayDepth + 1 } }
  cases hres : go inner
      { env with rt := { env.rt with arrayDepth := env.rt.arrayDepth + 1 } } with
  | panic m => trivial
  | fuelOut => trivial
  | err e env2 =>
    rw [hres] at h
    exact ⟨h.1, h.2.1, h.2.2⟩
  | ok env2 =>
    rw [hres] at h
    cases hstart :
        (match len with
         | .static n =>
           if ({ env2 with rt := { env2.rt with arrayDepth := env2.rt.arrayDepth - 1 }} :
                Uiua).rt.stack.length < n then none
           else some (({ env2 with rt :=
                { env2.rt with arrayDepth := env2.rt.arrayDepth - 1 }} :
                Uiua).rt.stack.length - n)
         | .dynamic n => some (env.rt.stack.length - n)) with
    | none =>
      simp only [hstart]
      exact ⟨h.1, h.2, fun _ => rfl⟩
    | some start =>
      simp only [hstart, validateSizeImpl]
      by_cases hempty :
          ((if boxed then
              (({ env2 with rt := { env2.rt with arrayDepth := env2.rt.arrayDepth - 1 }} :
                Uiua).rt.stack.take
                  (({ env2 with rt := { env2.rt with
                      arrayDepth := env2.rt.arrayDepth - 1 }} : Uiua).rt.stack.length
                    - start)).map Value.boxed
            else
              ({ env2 with rt := { env2.rt with arrayDepth := env2.rt.arrayDepth - 1 }} :
                Uiua).rt.stack.take
                  (({ env2 with rt := { env2.rt with
                      arrayDepth := env2.rt.arrayDepth - 1 }} : Uiua).rt.stack.length
                    - start)).isEmpty && boxed) = true
      · simp only [hempty]
        exact ⟨h.1, h.2⟩
      · simp only [Bool.not_eq_true] at hempty
        simp only [hempty]
        cases hrow : Value.fromRowValues
            (if boxed then
              (({ env2 with rt := { env2.rt with arrayDepth := env2.rt.arrayDepth - 1 }} :
                Uiua).rt.stack.take
                  (({ env2 with rt := { env2.rt with
                      arrayDepth := env2.rt.arrayDepth - 1 }} : Uiua).rt.stack.length
                    - start)).map Value.boxed
            else
              ({ env2 with rt := { env2.rt with arrayDepth := env2.rt.arrayDepth - 1 }} :
                Uiua).rt.stack.take
                  (({ env2 with rt := { env2.rt with
                      arrayDepth := env2.rt.arrayDepth - 1 }} : Uiua).rt.stack.length
                    - start)) with
        | none =>
          simp only [hrow]
          exact ⟨h.1, h.2, fun _ => rfl⟩
        | some val =>
          simp only [hrow]
          exact ⟨h.1, h.2⟩

/-- Removal produces a sublist of the original association list. -/
theorem aremove_sublist {α : Type} (l : List (Nat × α)) (i : Nat) (w : α)
    (l' : List (Nat × α)) (h : aremove l i = some (w, l')) : l'.Sublist l := by
  induction l generalizing l' with
  | nil => simp [aremove] at h
  | cons kv rest ih =>
    obtain ⟨k, v⟩ := kv
    simp only [aremove] at h
    by_cases hk : k = i
    · rw [if_pos hk] at h
      cases h
      exact (List.sublist_cons_self _ _)
    · rw [if_neg hk] at h
      cases hrec : aremove rest i with
      | none => rw [hrec] at h; cases h
      | some p =>
        obtain ⟨w2, rest'⟩ := p
        rw [hrec] at h
        cases h
        exact (ih _ hrec).cons₂ _

/-- The `Run` fold preserves the execution invariant when `go` does. -/
theorem foldlRun_persist (go : Node → Uiua → Outcome)
    (hgo : ∀ n e', OutP (persist e') e'.rt.unevaluatedConstants (go n e')) :
    ∀ (nodes : List Node) (acc : Outcome) (c : Persist) (u : List (Nat × Node)),
      OutP c u acc →
      OutP c u (nodes.foldl
        (fun acc n => match acc with | .ok env' => go n env' | other => other) acc) := by
  intro nodes
  induction nodes with
  | nil => intro acc c u h; exact h
  | cons n rest ih =>
    intro acc c u h
    refine ih _ c u ?_
    cases acc with
    | ok e => exact (hgo n e).transport h.1 h.2
    | err e s => exact h
    | panic m => exact h
    | fuelOut => exact h

/-- Lemma: `execCore` preserves the execution invariant when `go` does. -/
theorem execCore_persist (cfg : Cfg) (go : Node → Uiua → Outcome)
    (hgo : ∀ n e', OutP (persist e') e'.rt.unevaluatedConstants (go n e'))
    (node : Node) (env : Uiua) :
    OutP (persist env) env.rt.unevaluatedConstants (execCore cfg go node env) := by
  cases node with
  | run nodes =>
    simp only [execCore]
    exact foldlRun_persist go hgo nodes _ _ _ ⟨rfl, List.Sublist.refl _⟩
  | push v => exact ⟨rfl, List.Sublist.refl _⟩
  | callGlobal index sp =>
    simp only [execCore]
    cases hb : env.asm.bindings.get? index with
    | none => simp only [hb]; exact ⟨rfl, List.Sublist.refl _, fun _ => rfl⟩
    | some binding =>
      simp only [hb]
      cases hbk : binding.kind with
      | const ov =>
        cases ov with
        | some val => exact ⟨rfl, List.Sublist.refl _⟩
        | none =>
          cases hrem : aremove env.rt.unevaluatedConstants index with
          | none => simp only [hrem]; exact ⟨rfl, List.Sublist.refl _, fun _ => rfl⟩
          | some p =>
            obtain ⟨nodeC, rest⟩ := p
            simp only [hrem]
            have hsub : rest.Sublist env.rt.unevaluatedConstants :=
              aremove_sublist _ _ _ _ hrem
            have h := hgo nodeC
              { env with rt := { env.rt with unevaluatedConstants := rest } }
            cases hres : go nodeC
                { env with rt := { env.rt with unevaluatedConstants := rest } } with
            | panic m => simp only [hres]; trivial
            | fuelOut => simp only [hres]; trivial
            | err e env1 =>
              simp only [hres]
              rw [hres] at h
              exact ⟨h.1, h.2.1.trans hsub, h.2.2⟩
            | ok env1 =>
              simp only [hres]
              rw [hres] at h
              cases hpop : popVal env1 "constant" with
              | error e =>
                simp only [hpop]
                refine ⟨h.1, h.2.trans hsub, fun _ => ?_⟩
                unfold popVal at hpop
                cases hst : env1.rt.stack with
                | nil => rw [hst] at hpop; cases hpop; rfl
                | cons a b => rw [hst] at hpop; cases hpop
              | ok p =>
                obtain ⟨val, env2⟩ := p
                simp only [hpop]
                have henv2 : persist env2 = persist env1 ∧
                    env2.rt.unevaluatedConstants = env1.rt.unevaluatedConstants := by
                  unfold popVal at hpop
                  cases hst : env1.rt.stack with
                  | nil => rw [hst] at hpop; cases hpop
                  | cons a b => rw [hst] at hpop; cases hpop; exact ⟨rfl, rfl⟩
                by_cases hlt : index < (pushVal val env2).asm.bindings.length
                · rw [if_pos hlt]
                  have hEnvA : persist ({ env with rt :=
                      { env.rt with unevaluatedConstants := rest } } : Uiua) = persist env := rfl
                  refine ⟨?_, ?_⟩
                  · have hfin : persist ({ pushVal val env2 with asm :=
                        { (pushVal val env2).asm with
                          bindings := (pushVal val env2).asm.bindings.set index
                            ⟨.const (some val)⟩ } } : Uiua) = persist env2 := by
                      simp [persist, pushVal, List.length_set]
                    exact hfin.trans (henv2.1.trans (h.1.trans hEnvA))
                  · show env2.rt.unevaluatedConstants.Sublist env.rt.unevaluatedConstants
                    rw [henv2.2]
                    exact h.2.trans hsub
                · rw [if_neg hlt]
                  trivial
      | func f =>
        simp only [hbk]
        cases hrl : respectRecursionLimit cfg env with
        | some e =>
          simp only [hrl]
          refine ⟨rfl, List.Sublist.refl _, fun _ => ?_⟩
          unfold respectRecursionLimit at hrl
          by_cases hgt : env.rt.callStack.length > env.rt.recursionLimit
          · rw [if_pos hgt] at hrl
            cases hrl
            rfl
          · rw [if_neg hgt] at hrl
            cases hrl
        | none =>
          simp only [hrl]
          exact callWithSpan_persist go cfg f _ env hgo
      | imported => simp only [hbk]; exact ⟨rfl, List.Sublist.refl _, fun _ => rfl⟩
      | module n => simp only [hbk]; exact ⟨rfl, List.Sublist.refl _, fun _ => rfl⟩
      | indexMac n => simp only [hbk]; exact ⟨rfl, List.Sublist.refl _, fun _ => rfl⟩
      | codeMac n => simp only [hbk]; exact ⟨rfl, List.Sublist.refl _, fun _ => rfl⟩
  | call f sp => exact callWithSpan_persist go cfg f sp env hgo
  | array len inner boxed sp =>
    exact withPrimSpan_persist sp none _ env
      (fun e' => makeArray_persist go len inner boxed e' hgo)
  | pushUnder n sp =>
    simp only [execCore]
    refine withPrimSpan_persist sp none _ env (fun e' => ?_)
    by_cases hlt : e'.rt.stack.length < n
    · simp only [hlt, if_true]
      exact ⟨rfl, List.Sublist.refl _, fun _ => rfl⟩
    · simp only [hlt, if_false]
      exact ⟨rfl, List.Sublist.refl _⟩
  | copyToUnder n sp =>
    simp only [execCore]
    refine withPrimSpan_persist sp none _ env (fun e' => ?_)
    by_cases hlt : e'.rt.stack.length < n
    · simp only [hlt, if_true]
      exact ⟨rfl, List.Sublist.refl _, fun _ => rfl⟩
    · simp only [hlt, if_false]
      exact ⟨rfl, List.Sublist.refl _⟩
  | popUnder n sp =>
    simp only [execCore]
    refine withPrimSpan_persist sp none _ env (fun e' => ?_)
    by_cases hlt : e'.rt.underStack.length < n
    · simp only [hlt, if_true]
      exact ⟨rfl, List.Sublist.refl _, fun _ => rfl⟩
    · simp only [hlt, if_false]
      exact ⟨rfl, List.Sublist.refl _⟩
  | noInline inner => exact hgo inner env
  | trackCaller inner =>
    simp only [execCore]
    cases hcs : env.rt.callStack with
    | nil => simp only [hcs]; trivial
    | cons f r => simp only [hcs]; exact hgo inner _

/-- Lemma: `exec` preserves the execution invariant: the persistent components are
unchanged, the unevaluated-constant table only shrinks, and a timeout error
can only arise when an execution limit is set. -/
theorem exec_persist (cfg : Cfg) : ∀ (fuel : Nat) (node : Node) (env : Uiua),
    OutP (persist env) env.rt.unevaluatedConstants (exec cfg fuel node env) := by
  intro fuel
  induction fuel with
  | zero => intro node env; trivial
  | succ fuel ih =>
    intro node env
    rw [exec_succ]
    exact finishNode_persist (execCore_persist cfg _ (fun n e' => ih n e') node env)

/-- Field-wise consequences of equal persistent components. -/
theorem persist_fields {s t : Uiua} (h : persist s = persist t) :
    s.rt.executionLimit = t.rt.executionLimit ∧ s.rt.executionStart = t.rt.executionStart
    ∧ s.rt.now = t.rt.now ∧ s.rt.interrupted = t.rt.interrupted
    ∧ s.rt.recursionLimit = t.rt.recursionLimit ∧ s.asm.spans = t.asm.spans
    ∧ s.asm.inputs = t.asm.inputs ∧ s.asm.functions = t.asm.functions
    ∧ s.asm.bindings.length = t.asm.bindings.length :=
  ⟨congrArg Persist.limit h, congrArg Persist.start h, congrArg Persist.clock h,
   congrArg Persist.intr h, congrArg Persist.recLim h, congrArg Persist.spans h,
   congrArg Persist.inputs h, congrArg Persist.functions h, congrArg Persist.nbindings h⟩

/-- The outcome of an exceeded execution limit: never a success; any error is
exactly the `Timeout` error carrying the current span and the inputs of the
state after the node (panic and fuel exhaustion are model artifacts). -/
def TimeoutRaised : Outcome → Prop
  | .ok _ => False
  | .err e s => e = ⟨.timeout (currentSpan s) s.asm.inputs, [], none⟩
  | .panic _ => True
  | .fuelOut => True

/-- C8: if an execution limit `t` is set and `now() - execution_start`
exceeds `t`, then executing any node raises a `Timeout` error carrying the
current span and the inputs (never a success); and when no limit is set, no
`Timeout` error is ever raised. -/
theorem claim8_execution_limit (cfg : Cfg) (fuel : Nat) (node : Node) (env : Uiua) :
    (∀ t, env.rt.executionLimit = some t → env.rt.now - env.rt.executionStart > t →
      TimeoutRaised (exec cfg (fuel + 1) node env))
    ∧ (env.rt.executionLimit = none →
      ∀ e s, exec cfg (fuel + 1) node env = .err e s → e.kind.isTimeout = false) := by
  constructor
  · intro t ht hgt
    rw [exec_succ]
    have ho := execCore_persist cfg _ (fun n e' => exec_persist cfg fuel n e') node env
    cases hres : execCore cfg (fun n e => exec cfg fuel n e) node env with
    | panic m => simp only [finishNode]; trivial
    | fuelOut => simp only [finishNode]; trivial
    | ok s =>
      rw [hres] at ho
      obtain ⟨hl, hs, hn, -⟩ := persist_fields ho.1
      have hrl : respectExecutionLimit s =
          some ⟨.timeout (currentSpan s) s.asm.inputs, [], none⟩ := by
        unfold respectExecutionLimit
        simp only [hl, ht]
        rw [if_pos (by rw [hs, hn]; exact hgt)]
      simp only [finishNode, hrl]
      rfl
    | err e s =>
      rw [hres] at ho
      obtain ⟨hl, hs, hn, -⟩ := persist_fields ho.1
      have hrl : respectExecutionLimit s =
          some ⟨.timeout (currentSpan s) s.asm.inputs, [], none⟩ := by
        unfold respectExecutionLimit
        simp only [hl, ht]
        rw [if_pos (by rw [hs, hn]; exact hgt)]
      simp only [finishNode, hrl]
      rfl
  · intro hnone e s heq
    have ho := exec_persist cfg (fuel + 1) node env
    rw [heq] at ho
    exact ho.2.2 hnone

/-- A state with an exceeded execution limit: limit 0, started at 0, now 5. -/
def envC8 : Uiua :=
  ⟨{ mkRuntime false none with executionLimit := some 0, now := 5 }, asm0⟩

/-- Witness for C8: on `envC8` (limit 0, clock 5) pushing a literal raises
the timeout, and on the limitless `env0` the error raised by an underflowing
`PopUnder` is not a timeout. -/
theorem claim8_witness :
    TimeoutRaised (exec cfgRel 1 (.push vOne) envC8)
    ∧ (match exec cfgRel 1 (.popUnder 1 0) env0 with
       | .err e _ => e.kind.isTimeout
       | _ => true) = false :=
  ⟨(claim8_execution_limit cfgRel 0 (.push vOne) envC8).1 0 rfl (by norm_num [envC8, mkRuntime]),
   rfl⟩

/-- The function of the C7 counterexample: signature `(0, 1)`, body index 0. -/
def fC7 : Func := ⟨.other 0, ⟨0, 1⟩, 0⟩

/-- The assembly of the C7 counterexample: `fC7` bound at index 0 with body
`Push 1`. -/
def asmC7 : Assembly := ⟨[⟨.func fC7⟩], [0, 1, 2], [.push vOne], 0⟩

/-- The state of the C7 counterexample: recursion limit 0, one live frame. -/
def envC7 : Uiua := ⟨{ mkRuntime false none with recursionLimit := 0 }, asmC7⟩

/-- C7 (counterexample): with the call stack (length 1) already exceeding the
recursion limit (0), a direct `Call` node still executes its body and
succeeds — the body's `Push 1` lands on the stack — instead of raising an
error, refuting "checked at every function call" as stated. -/
theorem claim7_counterexample :
    envC7.rt.callStack.length > envC7.rt.recursionLimit
    ∧ (match exec cfgRel 3 (.call fC7 0) envC7 with
       | .ok e => some e.rt.stack
       | _ => none) = some [vOne] := by
  constructor
  · simp [envC7, mkRuntime]
  · rfl

/-- C7 (amended): the recursion limit defaults to 20 in debug builds and, in
release builds, to the `UIUA_RECURSION_LIMIT` environment override or 100;
and it is checked at function calls dispatched through `CallGlobal`: when the
call stack is longer than the limit, an error is raised and the call body is
not executed (the state is returned unchanged). -/
theorem claim7_amended :
    (∀ e, (mkRuntime true e).recursionLimit = 20)
    ∧ (mkRuntime false none).recursionLimit = 100
    ∧ (∀ k, (mkRuntime false (some k)).recursionLimit = k)
    ∧ ∀ (cfg : Cfg) (fuel i sp : Nat) (env : Uiua) (b : Binding) (f : Func),
        env.asm.bindings.get? i = some b → b.kind = .func f →
        env.rt.callStack.length > env.rt.recursionLimit →
        env.rt.executionLimit = none → env.rt.interrupted = none →
        exec cfg (fuel + 1) (.callGlobal i sp) env =
          .err (mkError env (recursionLimitMessage cfg env.rt.recursionLimit)) env := by
  refine ⟨fun e => rfl, rfl, fun k => rfl, ?_⟩
  intro cfg fuel i sp env b f hb hbk hgt hl hi
  have hrr : respectRecursionLimit cfg env =
      some (mkError env (recursionLimitMessage cfg env.rt.recursionLimit)) := by
    unfold respectRecursionLimit
    rw [if_pos hgt]
  rw [exec_succ]
  simp only [execCore, hb, hbk, hrr]
  exact finishNode_err _ env hl hi

/-- Witness for C7 (amended): on `envC7`, `CallGlobal 0` raises the
recursion-limit error without executing the body. -/
theorem claim7_witness :
    exec cfgRel 1 (.callGlobal 0 0) envC7 =
      .err (mkError envC7 (recursionLimitMessage cfgRel envC7.rt.recursionLimit)) envC7 :=
  claim7_amended.2.2.2 cfgRel 0 0 0 envC7 ⟨.func fC7⟩ fC7 rfl rfl
    (by simp [envC7, mkRuntime]) rfl rfl

/-- A successful `get?` implies the index is in bounds. -/
theorem get?_lt {α : Type} (l : List α) (i : Nat) (b : α) (h : l.get? i = some b) :
    i < l.length := by
  by_contra hcon
  rw [List.get?_eq_getElem?, List.getElem?_eq_none (by omega)] at h
  cases h

/-- Lookup of an absent key is `none`. -/
theorem alookup_eq_none_of_not_mem {α : Type} (l : List (Nat × α)) (i : Nat)
    (h : i ∉ l.map Prod.fst) : alookup l i = none := by
  induction l with
  | nil => rfl
  | cons kv rest ih =>
    obtain ⟨k, v⟩ := kv
    simp only [List.map_cons, List.mem_cons] at h
    push_neg at h
    simp only [alookup]
    rw [if_neg (by exact fun hk => h.1 hk.symm)]
    exact ih h.2

/-- After removing a key from a table with distinct keys, it is gone. -/
theorem alookup_aremove_self {α : Type} (l : List (Nat × α)) (i : Nat) (w : α)
    (l' : List (Nat × α)) (hnd : (l.map Prod.fst).Nodup)
    (h : aremove l i = some (w, l')) : alookup l' i = none := by
  induction l generalizing l' with
  | nil => simp [aremove] at h
  | cons kv rest ih =>
    obtain ⟨k, v⟩ := kv
    simp only [List.map_cons, List.nodup_cons] at hnd
    simp only [aremove] at h
    by_cases hk : k = i
    · rw [if_pos hk] at h
      cases h
      subst hk
      exact alookup_eq_none_of_not_mem _ _ hnd.1
    · rw [if_neg hk] at h
      cases hrec : aremove rest i with
      | none => rw [hrec] at h; cases h
      | some p =>
        obtain ⟨w2, rest'⟩ := p
        rw [hrec] at h
        cases h
        simp only [alookup]
        rw [if_neg hk]
        exact ih _ hnd.2 hrec

/-- An absent key stays absent in any sublist. -/
theorem alookup_eq_none_of_sublist {α : Type} {l' l : List (Nat × α)} (hs : l'.Sublist l)
    (i : Nat) (h : alookup l i = none) : alookup l' i = none := by
  induction hs with
  | slnil => rfl
  | cons a hs ih =>
    obtain ⟨k, v⟩ := a
    simp only [alookup] at h
    by_cases hk : k = i
    · rw [if_pos hk] at h; cases h
    · rw [if_neg hk] at h
      exact ih h
  | cons₂ a hs ih =>
    obtain ⟨k, v⟩ := a
    simp only [alookup] at h ⊢
    by_cases hk : k = i
    · rw [if_pos hk] at h; cases h
    · rw [if_neg hk] at h ⊢
      exact ih h

/-- Lemma: `CallGlobal` on a memoized constant pushes the stored value. -/
theorem exec_callGlobal_const_some (cfg : Cfg) (fuel i sp : Nat) (env : Uiua) (v : Value)
    (hb : env.asm.bindings.get? i = some ⟨.const (some v)⟩)
    (hl : env.rt.executionLimit = none) (hi : env.rt.interrupted = none) :
    exec cfg (fuel + 1) (.callGlobal i sp) env = .ok (pushVal v env) := by
  rw [exec_succ]
  simp only [execCore, hb]
  exact finishNode_ok _ hl hi

/-- The state after memoizing a deferred constant: the binding at `i` is
overwritten with `Const(Some v)` through the copy-on-write binding table. -/
def memoizeConst (env1 : Uiua) (i : Nat) (v : Value) : Uiua :=
  { env1 with asm := { env1.asm with
      bindings := env1.asm.bindings.set i ⟨.const (some v)⟩ } }

/-- C5: a `CallGlobal` on a deferred constant (`Const(None)` with an entry in
`unevaluated_constants`) removes the entry, executes it, pushes the resulting
value and memoizes the binding to `Const(Some v)`; afterwards the entry is
gone (so the code cannot run again) and every subsequent `CallGlobal` on the
same index pushes the memoized value without re-execution. -/
theorem claim5_deferred_const (cfg : Cfg) (fuel i sp : Nat) (env env1 : Uiua)
    (b : Binding) (nodeC : Node) (rest : List (Nat × Node)) (v : Value) (st : List Value)
    (hb : env.asm.bindings.get? i = some b) (hbk : b.kind = .const none)
    (hrem : aremove env.rt.unevaluatedConstants i = some (nodeC, rest))
    (hnd : (env.rt.unevaluatedConstants.map Prod.fst).Nodup)
    (hexec : exec cfg fuel nodeC
        { env with rt := { env.rt with unevaluatedConstants := rest } } = .ok env1)
    (hst : env1.rt.stack = v :: st)
    (hl : env1.rt.executionLimit = none) (hi : env1.rt.interrupted = none) :
    exec cfg (fuel + 1) (.callGlobal i sp) env = .ok (memoizeConst env1 i v)
    ∧ (memoizeConst env1 i v).asm.bindings.get? i = some ⟨.const (some v)⟩
    ∧ alookup (memoizeConst env1 i v).rt.unevaluatedConstants i = none
    ∧ ∀ fuel2 sp2, exec cfg (fuel2 + 1) (.callGlobal i sp2) (memoizeConst env1 i v) =
        .ok (pushVal v (memoizeConst env1 i v)) := by
  have ho := exec_persist cfg fuel nodeC
    { env with rt := { env.rt with unevaluatedConstants := rest } }
  rw [hexec] at ho
  have hlen1 : env1.asm.bindings.length = env.asm.bindings.length :=
    (persist_fields ho.1).2.2.2.2.2.2.2.2
  have hlt0 := get?_lt _ _ _ hb
  have hlen : i < env1.asm.bindings.length := by omega
  have hune : alookup env1.rt.unevaluatedConstants i = none :=
    alookup_eq_none_of_sublist ho.2 i (alookup_aremove_self _ _ _ _ hnd hrem)
  obtain ⟨⟨st1, un, cs, rec, fs, ufs, fbs, ad, el, es, rl, intr, uc, ch, nc, now⟩, asm1⟩ := env1
  simp only at hst hl hi hlen hune
  subst hst hl hi
  refine ⟨?_, ?_, ?_, ?_⟩
  · rw [exec_succ]
    simp only [execCore, hb, hbk, hrem, hexec, popVal, pushVal]
    rw [if_pos (by simpa using hlen)]
    exact finishNode_ok _ rfl rfl
  · simp only [memoizeConst]
    rw [List.get?_eq_getElem?]
    simpa using List.getElem?_set_self (by simpa using hlen)
  · exact hune
  · intro fuel2 sp2
    refine exec_callGlobal_const_some cfg fuel2 i sp2 _ v ?_ rfl rfl
    simp only [memoizeConst]
    rw [List.get?_eq_getElem?]
    simpa using List.getElem?_set_self (by simpa using hlen)

/-- The assembly of the C5 witness: one deferred constant binding. -/
def asmC5 : Assembly := ⟨[⟨.const none⟩], [0, 1, 2], [], 0⟩

/-- The initial state of the C5 witness: binding 0 deferred, its code
`Push 7` pending in `unevaluated_constants`. -/
def envC5 : Uiua :=
  ⟨{ mkRuntime false none with unevaluatedConstants := [(0, .push vSeven)] }, asmC5⟩

/-- The state of the C5 witness after the constant's code ran: `7` pushed,
the pending entry consumed. -/
def envC5b : Uiua := ⟨{ mkRuntime false none with stack := [vSeven] }, asmC5⟩

/-- Witness for C5: calling the deferred constant materializes `7`, memoizes
binding 0, and leaves no pending entry. -/
theorem claim5_witness :
    exec cfgRel 2 (.callGlobal 0 0) envC5 = .ok (memoizeConst envC5b 0 vSeven)
    ∧ alookup (memoizeConst envC5b 0 vSeven).rt.unevaluatedConstants 0 = none := by
  have h := claim5_deferred_const cfgRel 1 0 0 envC5 envC5b ⟨.const none⟩ (.push vSeven) []
    vSeven [] rfl rfl rfl (by simp [envC5]) rfl rfl rfl rfl
  exact ⟨h.1, h.2.2.1⟩

/-- Chunking the concatenation of equal-length lists recovers them. -/
theorem chunksOf_flatten (L : Nat) (ls : List (List Elem))
    (h : ∀ l ∈ ls, l.length = L) :
    chunksOf L ls.length ls.flatten = ls := by
  induction ls with
  | nil => rfl
  | cons l rest ih =>
    simp only [List.length_cons, List.flatten_cons, chunksOf]
    have hl : l.length = L := h l (by simp)
    rw [List.take_left' hl, List.drop_left' hl,
      ih (fun x hx => h x (List.mem_cons_of_mem _ hx))]

/-- Rebuilding same-shaped values from their data is the identity. -/
theorem map_mk_data (vs : List Value) (sh : List Nat) (h : ∀ v ∈ vs, v.shape = sh) :
    vs.map (fun x => (⟨sh, x.data⟩ : Value)) = vs := by
  induction vs with
  | nil => rfl
  | cons v rest ih =>
    simp only [List.map_cons]
    rw [ih (fun x hx => h x (List.mem_cons_of_mem _ hx)), ← h v (by simp)]

/-- The rows of the array built by `from_row_values` from well-formed,
same-shaped values are exactly those values. -/
theorem rows_fromRowValues (vs : List Value) (sh : List Nat) (w : Value)
    (h : ∀ v ∈ vs, v.shape = sh ∧ v.data.length = sh.prod)
    (hv : Value.fromRowValues vs = some w) : w.rows = vs := by
  cases vs with
  | nil =>
    simp only [Value.fromRowValues] at hv
    cases hv
    rfl
  | cons v rest =>
    have hvs : v.shape = sh := (h v (by simp)).1
    have hcond : (rest.all (fun w' => w'.shape == v.shape)) = true := by
      rw [List.all_eq_true]
      intro x hx
      have hx1 := (h x (by simp [hx])).1
      simp [hx1, hvs]
    simp only [Value.fromRowValues] at hv
    rw [if_pos (by simpa using hcond)] at hv
    cases hv
    simp only [Value.rows]
    have hlen : ∀ l ∈ (v :: rest).map Value.data, l.length = v.shape.prod := by
      intro l hl
      obtain ⟨x, hx, hxl⟩ := List.mem_map.mp hl
      rw [← hxl, (h x hx).2, hvs]
    have hch := chunksOf_flatten (v.shape.prod) ((v :: rest).map Value.data) hlen
    rw [List.length_map] at hch
    rw [hch, List.map_map]
    have : ∀ x ∈ v :: rest, x.shape = v.shape := fun x hx => (h x hx).1.trans hvs.symm
    simpa using map_mk_data (v :: rest) v.shape this

/-- Folding a sequence of `Push` nodes pushes the values in order. -/
theorem foldl_pushes (cfg : Cfg) (fuel : Nat) : ∀ (vs : List Value) (env : Uiua),
    env.rt.executionLimit = none → env.rt.interrupted = none →
    (vs.map Node.push).foldl
      (fun (acc : Outcome) n =>
        match acc with | Outcome.ok e => exec cfg (fuel + 1) n e | other => other)
      (Outcome.ok env)
      = .ok { env with rt := { env.rt with stack := vs.reverse ++ env.rt.stack } } := by
  intro vs
  induction vs with
  | nil =>
    intro env hl hi
    simp
  | cons v rest ih =>
    intro env hl hi
    simp only [List.map_cons, List.foldl_cons]
    have hstep : exec cfg (fuel + 1) (.push v) env = .ok (pushVal v env) := by
      rw [exec_succ]
      simp only [execCore]
      exact finishNode_ok _ hl hi
    rw [hstep, ih (pushVal v env) hl hi]
    simp [pushVal, List.append_assoc]

/-- Executing `Run` of a sequence of `Push` nodes pushes the values in order:
the final stack is the reversed value list on top of the old stack. -/
theorem exec_pushes (cfg : Cfg) (fuel : Nat) (vs : List Value) (env : Uiua)
    (hl : env.rt.executionLimit = none) (hi : env.rt.interrupted = none) :
    exec cfg (fuel + 2) (.run (vs.map .push)) env =
      .ok { env with rt := { env.rt with stack := vs.reverse ++ env.rt.stack } } := by
  rw [exec_succ]
  simp only [execCore]
  rw [foldl_pushes cfg fuel vs env hl hi]
  exact finishNode_ok _ hl hi

/-- Lemma: `from_row_values` succeeds on same-shaped values. -/
theorem fromRowValues_isSome (vs : List Value) (sh : List Nat)
    (h : ∀ v ∈ vs, v.shape = sh) : ∃ w, Value.fromRowValues vs = some w := by
  cases vs with
  | nil => exact ⟨_, rfl⟩
  | cons v rest =>
    have hcond : (rest.all (fun w' => w'.shape == v.shape)) = true := by
      rw [List.all_eq_true]
      intro x hx
      have h1 := h x (List.mem_cons_of_mem _ hx)
      have h2 := h v (by simp)
      simp [h1, h2]
    refine ⟨⟨(v :: rest).length :: v.shape, ((v :: rest).map Value.data).flatten⟩, ?_⟩
    simp only [Value.fromRowValues]
    rw [if_pos (by simpa using hcond)]

/-- C6 (amended): executing an `Array` node with `len = Static n`,
`boxed = false`, whose inner is the sequence `Push v_0, …, Push v_(n-1)` of
well-formed same-shaped values, pushes an array whose rows are
`[v_(n-1), …, v_0]` — the pushed values in reverse push order, row 0 being
the last value pushed (the top of the stack). -/
theorem claim6_amended (cfg : Cfg) (fuel sp : Nat) (vs : List Value) (sh : List Nat)
    (env : Uiua) (f : StackFrame) (r : List StackFrame)
    (hcs : env.rt.callStack = f :: r)
    (h : ∀ v ∈ vs, v.shape = sh ∧ v.data.length = sh.prod)
    (hl : env.rt.executionLimit = none) (hi : env.rt.interrupted = none) :
    ∃ arr : Value,
      exec cfg (fuel + 3) (.array (.static vs.length) (.run (vs.map .push)) false sp) env =
        .ok (pushVal arr env) ∧ arr.rows = vs.reverse := by
  obtain ⟨⟨st, un, cs, rec, fs, ufs, fbs, ad, el, es, rl, intr, uc, ch, nc, now⟩, asm⟩ := env
  simp only at hcs hl hi
  subst hcs hl hi
  obtain ⟨w, hw⟩ := fromRowValues_isSome vs.reverse sh
    (fun v hv => (h v (List.mem_reverse.mp hv)).1)
  refine ⟨w, ?_, rows_fromRowValues vs.reverse sh w
    (fun v hv => h v (List.mem_reverse.mp hv)) hw⟩
  rw [exec_succ]
  simp only [execCore, withPrimSpan, makeArray, exec_pushes]
  simp only [List.length_append, List.length_reverse, Nat.add_sub_cancel_left,
    Nat.add_sub_cancel, Bool.and_false, validateSizeImpl]
  rw [if_neg (by omega : ¬ (vs.length + st.length < vs.length))]
  simp only [Nat.add_sub_cancel_left, Nat.add_sub_cancel,
    List.take_left' (show (vs.reverse).length = vs.length by simp),
    List.drop_left' (show (vs.reverse).length = vs.length by simp)]
  simp only [if_neg (show ¬ (false = true) by simp)]
  rw [hw]
  simp only [popSpanAfter, pushVal]
  exact finishNode_ok _ rfl rfl

/-- C6 (counterexample): pushing `v_0 = 1` then `v_1 = 2` inside
`Array{Static 2, boxed = false}` produces an array whose rows are `[2, 1]` —
the reverse of `[v_0, v_1] = [1, 2]` — because the drained values are
collected in reverse, refuting the claimed row order. -/
theorem claim6_counterexample :
    (match exec cfgRel 3 (.array (.static 2) (.run [.push vOne, .push vTwo]) false 0) env0 with
     | .ok e => some ((e.rt.stack.headD ⟨[], []⟩).rows)
     | _ => none) = some [vTwo, vOne]
    ∧ [vTwo, vOne] ≠ [vOne, vTwo] :=
  ⟨rfl, by simp [vOne, vTwo]⟩

/-- Witness for C6 (amended): the same concrete array, produced through
`claim6_amended`, has rows `[2, 1]`. -/
theorem claim6_witness :
    (match exec cfgRel 3 (.array (.static 2) (.run [.push vOne, .push vTwo]) false 0) env0 with
     | .ok e => (e.rt.stack.headD ⟨[], []⟩).rows
     | _ => []) = [vTwo, vOne] := by
  have hmem : ∀ v ∈ [vOne, vTwo], v.shape = ([] : List Nat)
      ∧ v.data.length = List.prod ([] : List Nat) := by
    intro v hv
    simp only [List.mem_cons, List.not_mem_nil, or_false] at hv
    rcases hv with rfl | rfl
    · exact ⟨rfl, rfl⟩
    · exact ⟨rfl, rfl⟩
  obtain ⟨arr, h1, h2⟩ := claim6_amended cfgRel 0 0 [vOne, vTwo] [] env0 defaultFrame []
    rfl hmem rfl rfl
  rw [show (.array (.static 2) (.run [.push vOne, .push vTwo]) false 0 : Node) =
      (.array (.static [vOne, vTwo].length) (.run ([vOne, vTwo].map .push)) false 0 : Node)
      from rfl]
  rw [h1]
  simpa [pushVal] using h2

/-- Removal returns the value the lookup would have found. -/
theorem alookup_of_aremove {α : Type} (l : List (Nat × α)) (i : Nat) (w : α)
    (l' : List (Nat × α)) (h : aremove l i = some (w, l')) : alookup l i = some w := by
  induction l generalizing l' with
  | nil => simp [aremove] at h
  | cons kv rest ih =>
    obtain ⟨k, v⟩ := kv
    simp only [aremove] at h
    simp only [alookup]
    by_cases hk : k = i
    · rw [if_pos hk] at h
      rw [if_pos hk]
      cases h
      rfl
    · rw [if_neg hk] at h
      rw [if_neg hk]
      cases hrec : aremove rest i with
      | none => rw [hrec] at h; cases h
      | some p =>
        obtain ⟨w2, rest'⟩ := p
        rw [hrec] at h
        cases h
        exact ih _ hrec

/-- Removal preserves distinctness of the keys. -/
theorem aremove_nodup {α : Type} (l : List (Nat × α)) (i : Nat) (w : α)
    (l' : List (Nat × α)) (h : aremove l i = some (w, l'))
    (hnd : (l.map Prod.fst).Nodup) : (l'.map Prod.fst).Nodup :=
  hnd.sublist ((aremove_sublist l i w l' h).map Prod.fst)

/-- The `wait` loop: on success the main stack is untouched, the children
table only shrinks, its keys stay distinct, and every waited id is gone. -/
theorem waitRows_ok : ∀ (hs : List Nat) (env : Uiua) (rows rows' : List Value) (env' : Uiua),
    waitRows env hs rows = .ok (rows', env') →
    (env.rt.children.map Prod.fst).Nodup →
    env'.rt.stack = env.rt.stack ∧ env'.rt.children.Sublist env.rt.children
    ∧ (env'.rt.children.map Prod.fst).Nodup
    ∧ ∀ h ∈ hs, alookup env'.rt.children h = none := by
  intro hs
  induction hs with
  | nil =>
    intro env rows rows' env' hok hnd
    simp only [waitRows] at hok
    cases hok
    exact ⟨rfl, List.Sublist.refl _, hnd, by simp⟩
  | cons hd rest ih =>
    intro env rows rows' env' hok hnd
    simp only [waitRows, removeChild] at hok
    cases hrem : aremove env.rt.children hd with
    | none => rw [hrem] at hok; cases hok
    | some p =>
      obtain ⟨res, rest'⟩ := p
      rw [hrem] at hok
      have hnd1 : (rest'.map Prod.fst).Nodup := aremove_nodup _ _ _ _ hrem hnd
      have hsub1 : rest'.Sublist env.rt.children := aremove_sublist _ _ _ _ hrem
      have hgone : alookup rest' hd = none := alookup_aremove_self _ _ _ _ hnd hrem
      cases res with
      | failed e => simp at hok
      | done tstack =>
        simp only at hok
        by_cases hlen : tstack.length = 1
        · rw [if_pos hlen] at hok
          obtain ⟨h1, h2, h3, h4⟩ := ih _ _ _ _ hok hnd1
          refine ⟨h1, h2.trans hsub1, h3, ?_⟩
          intro x hx
          rcases List.mem_cons.mp hx with rfl | hx
          · exact alookup_eq_none_of_sublist h2 x hgone
          · exact h4 x hx
        · rw [if_neg hlen] at hok
          cases hfr : Value.fromRowValues tstack with
          | none => rw [hfr] at hok; cases hok
          | some row =>
            rw [hfr] at hok
            obtain ⟨h1, h2, h3, h4⟩ := ih _ _ _ _ hok hnd1
            refine ⟨h1, h2.trans hsub1, h3, ?_⟩
            intro x hx
            rcases List.mem_cons.mp hx with rfl | hx
            · exact alookup_eq_none_of_sublist h2 x hgone
            · exact h4 x hx

/-- C9: given distinct child ids, a successful `wait` on a scalar id extends
the parent's main stack by that child's registered final stack and consumes
the registration; a successful `wait` on a shape-`s` array of ids pushes a
single value whose shape starts with `s`, consuming every waited
registration. -/
theorem claim9_wait (env : Uiua) (id : Value) (s : List Nat) (hs : List Nat)
    (hna : asNaturalArray id = some (s, hs))
    (hnd : (env.rt.children.map Prod.fst).Nodup) :
    (s = [] → ∀ env', wait env id = .ok env' →
      (∃ cs, alookup env.rt.children (hs.headD 0) = some (.done cs)
        ∧ env'.rt.stack = cs.reverse ++ env.rt.stack)
      ∧ alookup env'.rt.children (hs.headD 0) = none)
    ∧ (s ≠ [] → ∀ env', wait env id = .ok env' →
      (∃ v rest2, env'.rt.stack = v :: env.rt.stack ∧ v.shape = s ++ rest2)
      ∧ ∀ h ∈ hs, alookup env'.rt.children h = none) := by
  constructor
  · rintro rfl env' hok
    simp only [wait, hna, removeChild, if_true] at hok
    cases hs with
    | nil => cases hok
    | cons handle tl =>
      simp only at hok
      cases hrem : aremove env.rt.children handle with
      | none => rw [hrem] at hok; cases hok
      | some p =>
        obtain ⟨res, rest'⟩ := p
        rw [hrem] at hok
        cases res with
        | failed e => simp at hok
        | done tstack =>
          simp only [Outcome.ok.injEq] at hok
          subst hok
          refine ⟨⟨tstack, ?_, rfl⟩, ?_⟩
          · simpa using alookup_of_aremove _ _ _ _ hrem
          · simpa using alookup_aremove_self _ _ _ _ hnd hrem
  · intro hsne env' hok
    simp only [wait, hna, if_neg hsne] at hok
    revert hok
    cases hrows : waitRows env hs [] with
    | error p => obtain ⟨e, env1⟩ := p; intro hok; simp at hok
    | ok p =>
      obtain ⟨rows, env1⟩ := p
      intro hok
      simp only at hok
      cases hfr : Value.fromRowValues rows with
      | none => rw [hfr] at hok; simp at hok
      | some val =>
        rw [hfr] at hok
        simp only [Outcome.ok.injEq] at hok
        subst hok
        obtain ⟨h1, h2, h3, h4⟩ := waitRows_ok hs env [] rows env1 hrows hnd
        refine ⟨⟨{ val with shape := s ++ val.shape.drop 1 }, val.shape.drop 1, ?_, rfl⟩, ?_⟩
        · simp [pushVal, h1]
        · intro x hx
          simpa [pushVal] using h4 x hx

/-- The state of the C9 witness: one finished child (id 1, final stack `[7]`). -/
def envW9 : Uiua := ⟨{ mkRuntime false none with children := [(1, .done [vSeven])] }, asm0⟩

/-- The id value of the C9 witness: the shape-`[1]` array `[1]`. -/
def idW9 : Value := ⟨[1], [.num 1]⟩

/-- The state after the C9 witness `wait`: the shape-`[1]` array `[7]` pushed
and the child registration consumed. -/
def envW9done : Uiua := ⟨{ mkRuntime false none with stack := [⟨[1], [.num 7]⟩] }, asm0⟩

/-- Witness for C9: waiting on the id array `[1]` pushes one value whose
shape starts with `[1]` and consumes registration 1. -/
theorem claim9_witness :
    (envW9done.rt.stack.headD ⟨[], []⟩).shape.take 1 = [1]
    ∧ alookup envW9done.rt.children 1 = none := by
  have h := (claim9_wait envW9 idW9 [1] [1] rfl (by simp [envW9])).2 (by simp) envW9done rfl
  obtain ⟨⟨v, rest2, h1, h2⟩, h3⟩ := h
  constructor
  · simp [h1, h2]
  · exact h3 1 (by simp)
